import Mathlib

/-!
Verification development for the document-extraction pipeline of this
repository (the documents module: kind detection, text decoding, layout
reconstruction, quality assessment and the extraction orchestrator
readFileContent).

Modelling conventions, shared by every definition below:

* A JavaScript string is a sequence of UTF-16 code units; we model it as
  `List Nat` (`JStr`).  `String.length`, regex counting and
  `new Set(s.split(FOO))` in the source all operate on code units, so this
  representation is length-faithful.  Step names, extractor tags and other
  pure ASCII identifiers are kept as Lean `String` for readability.
* A byte buffer (`ArrayBuffer` / `Uint8Array`) is a `List Nat` of byte
  values (`Bytes`).
* JavaScript numbers are modelled as exact rationals (`Rat`).  The numeric
  work of the pipeline (threshold comparisons, score sums, two-decimal
  rounding) stays far from the 2^53 regime where Float and Rat could
  disagree, except possibly at exact rounding boundaries of `toFixed`,
  which no claim depends on.
* Effectful stages are modelled as pure functions of an environment record
  that carries the outcome of every external collaborator (pdf.js item
  extraction, the HTTP extraction service, the OCR engine, file readers).
  A stage that catches its own exceptions is total; an operation whose
  exception escapes `readFileContent` is an `Except.error`.
-/

/-- A JavaScript string: a list of UTF-16 code units. -/
abbrev JStr := List Nat

/-- A byte buffer: a list of byte values. -/
abbrev Bytes := List Nat

/-- Convenience injection of an ASCII/BMP Lean string literal into `JStr`.
For characters of the Basic Multilingual Plane the UTF-16 encoding is the
code point itself, so mapping `Char.toNat` is exact there. -/
def jstr (s : String) : JStr := s.data.map Char.toNat

/-- Membership of a code unit in the JavaScript regex class `\s`
(ECMAScript WhiteSpace plus LineTerminator: TAB LF VT FF CR SP NBSP
OGHAM-SP U+2000..U+200A LS PS NNBSP MMSP IDEOGRAPHIC-SP ZWNBSP).
`String.prototype.trim` strips exactly the same set. -/
def isJsSpace (u : Nat) : Bool :=
  u == 0x20 || (0x9 ≤ u && u ≤ 0xD) || u == 0xA0 || u == 0x1680 ||
  (0x2000 ≤ u && u ≤ 0x200A) || u == 0x2028 || u == 0x2029 ||
  u == 0x202F || u == 0x205F || u == 0x3000 || u == 0xFEFF

/-- Worker for `collapseWs`; the flag records whether the previous unit was
whitespace (so that a run contributes a single space). -/
def collapseWsAux : Bool → JStr → JStr
  | _, [] => []
  | inRun, u :: rest =>
    if isJsSpace u then
      if inRun then collapseWsAux true rest
      else 0x20 :: collapseWsAux true rest
    else u :: collapseWsAux false rest

/-- The source idiom `text.replace(/\s+/g, ' ')`: every maximal run of
whitespace code units becomes a single space. -/
def collapseWs (s : JStr) : JStr := collapseWsAux false s

/-- The source idiom `text.trim()`: strip leading and trailing JavaScript
whitespace. -/
def trimJs (s : JStr) : JStr :=
  ((s.dropWhile isJsSpace).reverse.dropWhile isJsSpace).reverse

/-- The source idiom `text.replace(/\s+/g, '')` (removal, used by
`detectLanguageFromText`). -/
def stripWs (s : JStr) : JStr := s.filter (fun u => !isJsSpace u)

/-- The regex class `[А-Яа-яЁё]` used throughout the module to count
Cyrillic letters. -/
def isCyrillicUnit (u : Nat) : Bool :=
  (0x410 ≤ u && u ≤ 0x44F) || u == 0x401 || u == 0x451

/-- The regex class `\d` (ASCII digits). -/
def isDigitUnit (u : Nat) : Bool := 0x30 ≤ u && u ≤ 0x39

/-- The regex class `[A-Za-z]` used by `detectLanguageFromText`. -/
def isLatinUnit (u : Nat) : Bool :=
  (0x41 ≤ u && u ≤ 0x5A) || (0x61 ≤ u && u ≤ 0x7A)

/-- The mojibake marker class `[ÃÂÐÑÒÓÝæ]` of `scoreTextCandidate`. -/
def isMojibakeUnit (u : Nat) : Bool :=
  u == 0xC3 || u == 0xC2 || u == 0xD0 || u == 0xD1 || u == 0xD2 ||
  u == 0xD3 || u == 0xDD || u == 0xE6

/-- The control-character class `[\u0000-\u0008\u000B\u000C\u000E-\u001F]`
of `scoreTextCandidate`. -/
def isControlUnit (u : Nat) : Bool :=
  u ≤ 0x8 || u == 0xB || u == 0xC || (0xE ≤ u && u ≤ 0x1F)

/-- Number of code units of `s` satisfying `p` — the source idiom
`(s.match(/class/g) or []).length`. -/
def countUnits (p : Nat → Bool) (s : JStr) : Nat := (s.filter p).length

/-- Number of distinct code units — the source idiom
`new Set(s.split(SEP)).size` with the empty separator. -/
def uniqueUnitCount (s : JStr) : Nat := s.dedup.length

/-- `Math.round(v * 100) / 100` from the source helper `roundCoord`
(JavaScript `Math.round` is floor of `x + 1/2`). -/
def roundCoord (v : Rat) : Rat := ((⌊v * 100 + 1/2⌋ : Int) : Rat) / 100

/-- JavaScript `Number(x.toFixed(3))` for the non-negative sums produced by
`computeQuality`: round to three decimal places, half away from zero. -/
def toFixed3 (q : Rat) : Rat := ((⌊q * 1000 + 1/2⌋ : Int) : Rat) / 1000

/-- Source constant `MIN_USEFUL_TEXT_LENGTH = 200`. -/
def MIN_USEFUL_TEXT_LENGTH : Nat := 200

/-- Source constant `OCR_QUALITY_THRESHOLD = 0.12`. -/
def OCR_QUALITY_THRESHOLD : Rat := 12/100

/-- Port of `computeQuality(text)`: whitespace-collapsed and trimmed text
is scored by `min(1, length/4000) + min(0.6, cyrillic/length)` and rounded
to three decimals. -/
def computeQuality (text : JStr) : Rat :=
  if text = [] then 0
  else
    let cleaned := trimJs (collapseWs text)
    if cleaned = [] then 0
    else
      let cyrillic : Rat := countUnits isCyrillicUnit cleaned
      let lengthScore : Rat := min 1 ((cleaned.length : Rat) / 4000)
      let cyrillicScore : Rat := min (6/10) (cyrillic / (max (cleaned.length : Rat) 1))
      toFixed3 (lengthScore + cyrillicScore)

/-- Result record of `evaluateSoftPdfAcceptance`.  The JavaScript value
`-Infinity` for the score of empty text is modelled as `⊥` in
`WithBot Rat`. -/
structure SoftAcceptance where
  readable : Bool
  reason : String
  score : WithBot Rat
  text : JStr
deriving Repr, DecidableEq

/-- Port of `evaluateSoftPdfAcceptance(assessment, text)`.  The
`assessment` argument is accepted and ignored exactly as in the source,
which never reads it; polymorphism in `α` lets us state that the result is
a function of `text` alone. -/
def evaluateSoftPdfAcceptance {α : Sort _} (_assessment : α) (text : JStr) :
    SoftAcceptance :=
  let cleaned := trimJs (collapseWs text)
  if cleaned = [] then
    { readable := false, reason := "empty", score := ⊥, text := [] }
  else
    let length : Rat := cleaned.length
    let cyrillic : Rat := countUnits isCyrillicUnit cleaned
    let digits : Rat := countUnits isDigitUnit cleaned
    let uniqueChars : Rat := uniqueUnitCount cleaned
    let score : Rat :=
      length / 80 + cyrillic * (4/10) + digits * (5/100) + uniqueChars * (1/10)
    let readable : Bool :=
      length ≥ (MIN_USEFUL_TEXT_LENGTH : Rat) ||
      (length ≥ 120 && cyrillic > 40) ||
      (length ≥ 120 && digits > 30) ||
      (length ≥ 70 && cyrillic ≥ 20 && digits ≥ 2) ||
      score ≥ 12
    { readable := readable
      reason := if readable then "accepted" else "too-short"
      score := (score : WithBot Rat)
      text := cleaned }

/-- Lowercasing of a code unit, for the source idiom `name.toLowerCase()`.
ASCII and the Cyrillic block are mapped exactly; other code points are
left unchanged (the kind-detection patterns below are pure ASCII, so only
the ASCII part of the mapping is ever observable there). -/
def jsLowerUnit (u : Nat) : Nat :=
  if 0x41 ≤ u ∧ u ≤ 0x5A then u + 0x20
  else if 0x410 ≤ u ∧ u ≤ 0x42F then u + 0x20
  else if u = 0x401 then 0x451
  else u

/-- Lowercase a JavaScript string. -/
def jsToLower (s : JStr) : JStr := s.map jsLowerUnit

/-- Boolean list prefix test (source idiom `s.startsWith(p)`). -/
def listStartsWith : List Nat → List Nat → Bool
  | [], _ => true
  | _ :: _, [] => false
  | p :: ps, s :: ss => p == s && listStartsWith ps ss

/-- Boolean list suffix test (source idiom `s.endsWith(p)`). -/
def listEndsWith (p s : List Nat) : Bool :=
  listStartsWith p.reverse s.reverse

/-- Boolean substring test (source idiom `s.includes(p)`). -/
def listContainsSub (p : List Nat) : List Nat → Bool
  | [] => listStartsWith p []
  | s :: ss => listStartsWith p (s :: ss) || listContainsSub p ss

/-- The filename test `name.match(/\.(txt|md|csv|json|log)$/)` of
`detectFileKind` (the name is already lowercased at the call site). -/
def matchesTextExtension (name : JStr) : Bool :=
  listEndsWith (jstr ".txt") name || listEndsWith (jstr ".md") name ||
  listEndsWith (jstr ".csv") name || listEndsWith (jstr ".json") name ||
  listEndsWith (jstr ".log") name

/-- Port of `detectFileKind(file, buffer)`.  `name`/`ftype` are the
declared file name and MIME type (absent attributes are the empty
string, as `file?.name || ''` produces).  The source reads the first two
bytes of an 8-byte view; reading past the end of the buffer gives
`undefined`, which fails the `===` comparisons, modelled by `getElem?`. -/
def detectFileKind (name ftype : JStr) (buffer : Bytes) : String :=
  let lname := jsToLower name
  let ltype := jsToLower ftype
  let view := buffer.take 8
  if listContainsSub (jstr "pdf") ltype || listEndsWith (jstr ".pdf") lname ||
      (view[0]? == some 0x25 && view[1]? == some 0x50) then "pdf"
  else if listEndsWith (jstr ".docx") lname ||
      listContainsSub (jstr "wordprocessingml") ltype ||
      (view[0]? == some 0x50 && view[1]? == some 0x4B) then "docx"
  else if listStartsWith (jstr "text/") ltype || matchesTextExtension lname then
    "text"
  else if listStartsWith (jstr "image/") ltype then "image"
  else "binary"

/-- Port of `detectLanguageFromText(text)`. -/
def detectLanguageFromText (text : JStr) : String :=
  let cleaned := stripWs text
  if cleaned = [] then "unknown"
  else
    let cyrillic : Rat := countUnits isCyrillicUnit cleaned
    let latin : Rat := countUnits isLatinUnit cleaned
    if cyrillic > latin * (12/10) then "ru"
    else if latin > cyrillic * (12/10) then "en"
    else "mixed"

/-- Port of `normalizePageSegments(segments, fallbackText)`.  A JavaScript
caller passing a non-array (`undefined`) is modelled by the empty list,
which takes the same fallback branch. -/
def normalizePageSegments (segments : List JStr) (fallbackText : JStr) :
    List JStr :=
  let cleaned := (segments.map (fun s => trimJs (collapseWs s))).filter (· ≠ [])
  if segments ≠ [] ∧ cleaned ≠ [] then cleaned
  else
    let fallback := trimJs (collapseWs fallbackText)
    if fallback ≠ [] then [fallback] else []

/-- Decimal digits of a page number as UTF-16 units. -/
def natUnits (n : Nat) : JStr := (toString n).data.map Char.toNat

/-- Join a list of strings with a separator (`Array.prototype.join`). -/
def joinSep (sep : JStr) : List JStr → JStr
  | [] => []
  | [s] => s
  | s :: rest => s ++ sep ++ joinSep sep rest

/-- Map with an explicit running index, the model of
`array.map((x, index) => ...)`. -/
def mapIdxFrom {α β : Type _} (f : Nat → α → β) : Nat → List α → List β
  | _, [] => []
  | i, a :: rest => f i a :: mapIdxFrom f (i + 1) rest

/-- Port of `buildPageTaggedText(pages)`: page `i` contributes
`<<<PAGE i>>>` then a newline and the page text, pages joined by blank
lines; the empty list gives the empty string. -/
def buildPageTaggedText (pages : List JStr) : JStr :=
  if pages = [] then []
  else
    joinSep (jstr "\n\n")
      (mapIdxFrom
        (fun index pageText =>
          jstr "<<<PAGE " ++ natUnits (index + 1) ++ jstr ">>>" ++
            [0x0A] ++ pageText)
        0 pages)

/-- The slice of a layout object that the orchestrator reads:
`layout.summary.pageCount` (always equal to `layout.pages.length` in every
construction site of the source) and the per-page `language` tags.  Block
geometry inside layouts is analysed separately by the standalone layout
functions below and is never read back by the orchestrator. -/
structure LayoutModel where
  pageCount : Nat
  languages : List String
deriving Repr, DecidableEq

/-- Port of `buildPlainLayout(pages)` at the granularity recorded by
`LayoutModel`: one layout page per input page, tagged with
`detectLanguageFromText`. -/
def buildPlainLayout (pages : List JStr) : LayoutModel :=
  { pageCount := pages.length
    languages := pages.map detectLanguageFromText }

/-- The page-level metadata record assembled by `buildPageMeta` (plus the
`ocrPatchedPages` field that the pdf branch of `readFileContent` adds by
mutation).  The cloudinary-only fields `pageImages` and
`cloudinaryArchiveUrl` are not modelled: no claim mentions them and the
uploads that produce them catch their own failures. -/
structure PageMeta where
  pages : List JStr
  pageCount : Nat
  pageTaggedText : JStr
  languages : List String
  layoutPageCount : Nat
  layout : Option LayoutModel
  ocrPatchedPages : Option (List Nat) := none
deriving Repr, DecidableEq

/-! ### Text decoding (`decodeUsing`, `decodeTextBuffer`, `scoreTextCandidate`)

The source delegates byte decoding to the platform `TextDecoder`, whose
behaviour for the six encodings used here is fixed by the WHATWG Encoding
standard; the decoders below implement that standard.  `decodeUsing`
returns the empty string when decoding throws (only possible in fatal
mode), matching the `try/catch` in the source. -/

/-- UTF-16 encoding of a list of Unicode code points (scalar values are
split into surrogate pairs). -/
def utf16OfCodePoints : List Nat → JStr
  | [] => []
  | cp :: rest =>
    if cp < 0x10000 then cp :: utf16OfCodePoints rest
    else
      (0xD800 + (cp - 0x10000) / 0x400) ::
        (0xDC00 + (cp - 0x10000) % 0x400) :: utf16OfCodePoints rest

/-- Is `b` a UTF-8 continuation byte within the window `lo..hi`. -/
def isCont (lo hi b : Nat) : Bool := lo ≤ b && b ≤ hi

/-- WHATWG UTF-8 decoder producing code points; `fatal = true` fails on
the first error, `fatal = false` emits U+FFFD and resynchronises at the
offending byte (the standard's prepend-and-retry behaviour). -/
def utf8Decode (fatal : Bool) : Bytes → Option (List Nat)
  | [] => some []
  | b :: rest =>
    if b ≤ 0x7F then (utf8Decode fatal rest).map (b :: ·)
    else if 0xC2 ≤ b ∧ b ≤ 0xDF then
      match rest with
      | [] => if fatal then none else some [0xFFFD]
      | c :: rest2 =>
        if isCont 0x80 0xBF c then
          (utf8Decode fatal rest2).map (((b % 0x20) * 0x40 + c % 0x40) :: ·)
        else if fatal then none
        else (utf8Decode fatal (c :: rest2)).map (0xFFFD :: ·)
    else if 0xE0 ≤ b ∧ b ≤ 0xEF then
      let lo := if b = 0xE0 then 0xA0 else 0x80
      let hi := if b = 0xED then 0x9F else 0xBF
      match rest with
      | [] => if fatal then none else some [0xFFFD]
      | c :: rest2 =>
        if isCont lo hi c then
          match rest2 with
          | [] => if fatal then none else some [0xFFFD]
          | d :: rest3 =>
            if isCont 0x80 0xBF d then
              (utf8Decode fatal rest3).map
                (((b % 0x10) * 0x1000 + (c % 0x40) * 0x40 + d % 0x40) :: ·)
            else if fatal then none
            else (utf8Decode fatal (d :: rest3)).map (0xFFFD :: ·)
        else if fatal then none
        else (utf8Decode fatal (c :: rest2)).map (0xFFFD :: ·)
    else if 0xF0 ≤ b ∧ b ≤ 0xF4 then
      let lo := if b = 0xF0 then 0x90 else 0x80
      let hi := if b = 0xF4 then 0x8F else 0xBF
      match rest with
      | [] => if fatal then none else some [0xFFFD]
      | c :: rest2 =>
        if isCont lo hi c then
          match rest2 with
          | [] => if fatal then none else some [0xFFFD]
          | d :: rest3 =>
            if isCont 0x80 0xBF d then
              match rest3 with
              | [] => if fatal then none else some [0xFFFD]
              | e :: rest4 =>
                if isCont 0x80 0xBF e then
                  (utf8Decode fatal rest4).map
                    (((b % 8) * 0x40000 + (c % 0x40) * 0x1000 +
                        (d % 0x40) * 0x40 + e % 0x40) :: ·)
                else if fatal then none
                else (utf8Decode fatal (e :: rest4)).map (0xFFFD :: ·)
            else if fatal then none
            else (utf8Decode fatal (d :: rest3)).map (0xFFFD :: ·)
        else if fatal then none
        else (utf8Decode fatal (c :: rest2)).map (0xFFFD :: ·)
    else if fatal then none
    else (utf8Decode fatal rest).map (0xFFFD :: ·)

/-- Pair up bytes into 16-bit units, little- or big-endian; a trailing
lone byte is a decoder error, emitted as U+FFFD in replacement mode. -/
def utf16Units (littleEndian : Bool) : Bytes → List Nat
  | [] => []
  | [_] => [0xFFFD]
  | b0 :: b1 :: rest =>
    (if littleEndian then b0 + 0x100 * b1 else 0x100 * b0 + b1) ::
      utf16Units littleEndian rest

/-- Second pass of the WHATWG UTF-16 decoder: well-formed surrogate pairs
pass through, unpaired surrogates become U+FFFD. -/
def fixSurrogates : List Nat → JStr
  | [] => []
  | u :: rest =>
    if 0xD800 ≤ u ∧ u ≤ 0xDBFF then
      match rest with
      | v :: rest2 =>
        if 0xDC00 ≤ v ∧ v ≤ 0xDFFF then u :: v :: fixSurrogates rest2
        else 0xFFFD :: fixSurrogates (v :: rest2)
      | [] => [0xFFFD]
    else if 0xDC00 ≤ u ∧ u ≤ 0xDFFF then 0xFFFD :: fixSurrogates rest
    else u :: fixSurrogates rest

/-- WHATWG index table for windows-1251, upper half (byte − 0x80 ↦ code
point; the unassigned byte 0x98 decodes to U+FFFD in replacement mode). -/
def win1251Upper : List Nat :=
  [0x0402, 0x0403, 0x201A, 0x0453, 0x201E, 0x2026, 0x2020, 0x2021,
   0x20AC, 0x2030, 0x0409, 0x2039, 0x040A, 0x040C, 0x040B, 0x040F,
   0x0452, 0x2018, 0x2019, 0x201C, 0x201D, 0x2022, 0x2013, 0x2014,
   0xFFFD, 0x2122, 0x0459, 0x203A, 0x045A, 0x045C, 0x045B, 0x045F,
   0x00A0, 0x040E, 0x045E, 0x0408, 0x00A4, 0x0490, 0x00A6, 0x00A7,
   0x0401, 0x00A9, 0x0404, 0x00AB, 0x00AC, 0x00AD, 0x00AE, 0x0407,
   0x00B0, 0x00B1, 0x0406, 0x0456, 0x0491, 0x00B5, 0x00B6, 0x00B7,
   0x0451, 0x2116, 0x0454, 0x00BB, 0x0458, 0x0405, 0x0455, 0x0457]

/-- WHATWG index table for koi8-r, bytes 0x80–0xBF (bytes 0xC0–0xFF are
generated arithmetically below). -/
def koi8rUpper : List Nat :=
  [0x2500, 0x2502, 0x250C, 0x2510, 0x2514, 0x2518, 0x251C, 0x2524,
   0x252C, 0x2534, 0x253C, 0x2580, 0x2584, 0x2588, 0x258C, 0x2590,
   0x2591, 0x2592, 0x2593, 0x2320, 0x25A0, 0x2219, 0x221A, 0x2248,
   0x2264, 0x2265, 0x00A0, 0x2321, 0x00B0, 0x00B2, 0x00B7, 0x00F7,
   0x2550, 0x2551, 0x2552, 0x0451, 0x2553, 0x2554, 0x2555, 0x2556,
   0x2557, 0x2558, 0x2559, 0x255A, 0x255B, 0x255C, 0x255D, 0x255E,
   0x255F, 0x2560, 0x2561, 0x0401, 0x2562, 0x2563, 0x2564, 0x2565,
   0x2566, 0x2567, 0x2568, 0x2569, 0x256A, 0x256B, 0x256C, 0x00A9]

/-- Cyrillic letter order of the koi8-r alphabetic rows 0xC0–0xDF and
0xE0–0xFF, as offsets into the lowercase block а=0x430. -/
def koi8rLetterOffsets : List Nat :=
  [0x1E, 0x00, 0x01, 0x16, 0x04, 0x05, 0x14, 0x03,
   0x15, 0x08, 0x09, 0x0A, 0x0B, 0x0C, 0x0D, 0x0E,
   0x0F, 0x1F, 0x10, 0x11, 0x12, 0x13, 0x06, 0x02,
   0x1C, 0x1B, 0x07, 0x18, 0x1D, 0x19, 0x17, 0x1A]

/-- WHATWG index table for ibm866, bytes 0xB0–0xDF (box drawing). -/
def ibm866Box : List Nat :=
  [0x2591, 0x2592, 0x2593, 0x2502, 0x2524, 0x2561, 0x2562, 0x2556,
   0x2555, 0x2563, 0x2551, 0x2557, 0x255D, 0x255C, 0x255B, 0x2510,
   0x2514, 0x2534, 0x252C, 0x251C, 0x2500, 0x253C, 0x255E, 0x255F,
   0x255A, 0x2554, 0x2569, 0x2566, 0x2560, 0x2550, 0x256C, 0x2567,
   0x2568, 0x2564, 0x2565, 0x2559, 0x2558, 0x2552, 0x2553, 0x256B,
   0x256A, 0x2518, 0x250C, 0x2588, 0x2584, 0x258C, 0x2590, 0x2580]

/-- WHATWG index table for ibm866, bytes 0xF0–0xFF. -/
def ibm866Tail : List Nat :=
  [0x0401, 0x0451, 0x0404, 0x0454, 0x0407, 0x0457, 0x040E, 0x045E,
   0x00B0, 0x2219, 0x00B7, 0x221A, 0x2116, 0x00A4, 0x25A0, 0x00A0]

/-- Single-byte decode for windows-1251. -/
def win1251Unit (b : Nat) : Nat :=
  if b < 0x80 then b
  else if b < 0xC0 then (win1251Upper[b - 0x80]?).getD 0xFFFD
  else 0x410 + (b - 0xC0)

/-- Single-byte decode for koi8-r. -/
def koi8rUnit (b : Nat) : Nat :=
  if b < 0x80 then b
  else if b < 0xC0 then (koi8rUpper[b - 0x80]?).getD 0xFFFD
  else if b < 0xE0 then 0x430 + (koi8rLetterOffsets[b - 0xC0]?).getD 0
  else 0x410 + (koi8rLetterOffsets[b - 0xE0]?).getD 0

/-- Single-byte decode for ibm866. -/
def ibm866Unit (b : Nat) : Nat :=
  if b < 0x80 then b
  else if b < 0xB0 then 0x410 + (b - 0x80)
  else if b < 0xE0 then (ibm866Box[b - 0xB0]?).getD 0xFFFD
  else if b < 0xF0 then 0x440 + (b - 0xE0)
  else (ibm866Tail[b - 0xF0]?).getD 0xFFFD

/-- The fixed candidate list of `decodeTextBuffer`, in source order. -/
inductive TextEncoding
  | utf8 | utf16le | utf16be | windows1251 | koi8r | ibm866
deriving Repr, DecidableEq

/-- Port of `decodeUsing(buffer, encoding, { fatal: false })`: total
decoding with replacement. -/
def decodeUsing (enc : TextEncoding) (buffer : Bytes) : JStr :=
  match enc with
  | .utf8 => utf16OfCodePoints ((utf8Decode false buffer).getD [])
  | .utf16le => fixSurrogates (utf16Units true buffer)
  | .utf16be => fixSurrogates (utf16Units false buffer)
  | .windows1251 => buffer.map win1251Unit
  | .koi8r => buffer.map koi8rUnit
  | .ibm866 => buffer.map ibm866Unit

/-- Port of `decodeUsing(buffer, 'utf-8', { fatal: true })`: the decode
error is thrown and caught, so the caller observes the empty string. -/
def decodeUsingUtf8Strict (buffer : Bytes) : JStr :=
  match utf8Decode true buffer with
  | none => []
  | some cps => utf16OfCodePoints cps

/-- Port of `scoreTextCandidate(text)`; `-Infinity` is `⊥`. -/
def scoreTextCandidate (text : JStr) : WithBot Rat :=
  if text = [] then ⊥
  else
    let cleaned := collapseWs text
    if cleaned.length = 0 then ⊥
    else
      let cyrillic : Rat := countUnits isCyrillicUnit cleaned
      let mojibake : Rat := countUnits isMojibakeUnit cleaned
      let controls : Rat := countUnits isControlUnit cleaned
      ((cleaned.length : Rat) / 50 + cyrillic * (6/10) - mojibake * 4 -
          controls * 6 : Rat)

/-- The candidate encodings of `decodeTextBuffer`, in source order. -/
def textCandidates : List TextEncoding :=
  [.utf8, .utf16le, .utf16be, .windows1251, .koi8r, .ibm866]

/-- The candidate loop of `decodeTextBuffer`: empty decodes are skipped,
and a candidate replaces the running best only with a strictly greater
score, so earlier encodings win ties. -/
def bestCandidate (buffer : Bytes) :
    List TextEncoding → WithBot Rat × JStr → WithBot Rat × JStr
  | [], best => best
  | enc :: rest, best =>
    let text := decodeUsing enc buffer
    if text = [] then bestCandidate buffer rest best
    else
      let score := scoreTextCandidate text
      if best.1 < score then bestCandidate buffer rest (score, text)
      else bestCandidate buffer rest best

/-- Port of `decodeTextBuffer(buffer)`.  A successful strict UTF-8 decode
is returned directly when non-empty (the empty string is falsy in the
source test `if (strictUtf8)`); otherwise the best-scoring candidate
wins. -/
def decodeTextBuffer (buffer : Bytes) : JStr :=
  let strictUtf8 := decodeUsingUtf8Strict buffer
  if strictUtf8 ≠ [] then strictUtf8
  else (bestCandidate buffer textCandidates (⊥, [])).2

/-! ### Layout reconstruction (`detectColumns`, `detectTableRows`)

Blocks carry the fields these functions read (`text` and the bounding
box); the remaining source fields (`id`, `width`, `height`, `column`,
`line`, `heading`) are never consulted by them.  `Array.prototype.sort`
with comparators `a.center - b.center` / `a.bbox[0] - b.bbox[0]` is a
stable ascending sort, which `List.insertionSort` with the corresponding
`≤` relation reproduces exactly. -/

/-- A bounding box `[x1, y1, x2, y2]`. -/
structure Bbox where
  x1 : Rat
  y1 : Rat
  x2 : Rat
  y2 : Rat
deriving Repr, DecidableEq

/-- A positioned text fragment. -/
structure Block where
  text : JStr
  bbox : Bbox
deriving Repr, DecidableEq

/-- A horizontal line of blocks as produced by `groupBlocksIntoLines`
(`detectTableRows` reads only the `y` coordinate and the block list). -/
structure Line where
  y : Rat
  blocks : List Block
deriving Repr, DecidableEq

/-- An entry of the `centers` array of `detectColumns`. -/
structure CenterEntry where
  center : Rat
  block : Block
deriving Repr, DecidableEq

/-- A detected column.  `start`/`end` of the source become
`startX`/`endX` (`end` is reserved in Lean); the default column emitted
for an empty block list carries no `blockCount` property, hence the
`Option`. -/
structure Column where
  id : String
  startX : Rat
  endX : Rat
  center : Rat
  blockCount : Option Nat
deriving Repr, DecidableEq

/-- Ordering of center entries used by the sort in `detectColumns`. -/
def centerLE (a b : CenterEntry) : Prop := a.center ≤ b.center

instance : DecidableRel centerLE := fun a b =>
  inferInstanceAs (Decidable (a.center ≤ b.center))

/-- `Math.min(...l)` over a list, with `⊤` for the (never used) empty
spread. -/
def minAll (l : List Rat) : WithTop Rat :=
  l.foldr (fun (a : Rat) (m : WithTop Rat) => min (a : WithTop Rat) m) ⊤

/-- `Math.max(...l)` over a list, with `⊥` for the (never used) empty
spread. -/
def maxAll (l : List Rat) : WithBot Rat :=
  l.foldr (fun (a : Rat) (m : WithBot Rat) => max (a : WithBot Rat) m) ⊥

/-- Worker of the cluster-splitting loop of `detectColumns`: `prev` is the
center of the previous sorted entry, `acc` the cluster being grown. -/
def splitGo (gapThreshold : Rat) (prev : Rat) (acc : List CenterEntry) :
    List CenterEntry → List (List CenterEntry)
  | [] => [acc]
  | e :: rest =>
    if e.center - prev > gapThreshold then
      acc :: splitGo gapThreshold e.center [e] rest
    else splitGo gapThreshold e.center (acc ++ [e]) rest

/-- The cluster-splitting loop of `detectColumns`: split the sorted center
list wherever the gap between consecutive centers exceeds the
threshold. -/
def splitByGap (gapThreshold : Rat) : List CenterEntry → List (List CenterEntry)
  | [] => []
  | e :: rest => splitGo gapThreshold e.center [e] rest

/-- Build the column record for cluster number `index`. -/
def columnOfCluster (pageWidth : Rat) (index : Nat)
    (cluster : List CenterEntry) : Column :=
  let minX := WithTop.untop' 0 (minAll (cluster.map (fun e => e.block.bbox.x1)))
  let maxX := WithBot.unbot' 0 (maxAll (cluster.map (fun e => e.block.bbox.x2)))
  let centerAvg := (cluster.map (fun e => e.center)).sum / cluster.length
  { id := "col-" ++ toString index
    startX := roundCoord (max 0 (minX - 12))
    endX := roundCoord (min pageWidth (maxX + 12))
    center := roundCoord centerAvg
    blockCount := some cluster.length }

/-- Port of `detectColumns(blocks, pageWidth)`. -/
def detectColumns (blocks : List Block) (pageWidth : Rat) : List Column :=
  if blocks = [] then
    [{ id := "col-0", startX := 0, endX := pageWidth,
       center := pageWidth / 2, blockCount := none }]
  else
    let centers := List.insertionSort centerLE
      (blocks.map (fun block =>
        { center := (block.bbox.x1 + block.bbox.x2) / 2, block := block }))
    let gapThreshold := max (pageWidth * (8/100)) 42
    mapIdxFrom (columnOfCluster pageWidth) 0 (splitByGap gapThreshold centers)

/-- A table cell (`{ text, bbox }` of the source). -/
structure TableCell where
  text : JStr
  bbox : Bbox
deriving Repr, DecidableEq

/-- A table row: rounded `y` plus the line's blocks sorted by X. -/
structure TableRow where
  y : Rat
  cells : List TableCell
deriving Repr, DecidableEq

/-- A detected table region. -/
structure TableRegion where
  id : String
  rows : List TableRow
deriving Repr, DecidableEq

/-- The per-line filter of `detectTableRows`:
`line.blocks.filter(b => b.text && b.text.trim().length > 0).length`. -/
def meaningfulBlockCount (line : Line) : Nat :=
  (line.blocks.filter (fun b => b.text ≠ [] ∧ trimJs b.text ≠ [])).length

/-- Sort blocks by the left edge of their bounding box (stable). -/
def sortBlocksByX (blocks : List Block) : List Block :=
  List.insertionSort (fun a b => a.bbox.x1 ≤ b.bbox.x1) blocks

/-- The row record built for one line of a detected table. -/
def tableRowOfLine (line : Line) : TableRow :=
  { y := roundCoord line.y
    cells := (sortBlocksByX line.blocks).map
      (fun b => { text := b.text, bbox := b.bbox }) }

/-- The region record built for run number `index` (ids are 1-based). -/
def tableRegionOfRun (index : Nat) (rows : List Line) : TableRegion :=
  { id := "table-" ++ toString (index + 1)
    rows := rows.map tableRowOfLine }

/-- The accumulation loop of `detectTableRows`: qualifying lines extend
the current run, a non-qualifying line flushes a non-empty run. -/
def collectRuns (minColumns : Nat) (current : List Line) :
    List Line → List (List Line)
  | [] => if current ≠ [] then [current] else []
  | line :: rest =>
    if meaningfulBlockCount line ≥ minColumns then
      collectRuns minColumns (current ++ [line]) rest
    else if current ≠ [] then current :: collectRuns minColumns [] rest
    else collectRuns minColumns [] rest

/-- Port of `detectTableRows(lines, minColumns = 3)`. -/
def detectTableRows (lines : List Line) (minColumns : Nat := 3) :
    List TableRegion :=
  mapIdxFrom tableRegionOfRun 0 (collectRuns minColumns [] lines)

/-- Specification-side decomposition of a line list into its maximal runs
of consecutive qualifying lines, written with `takeWhile`/`dropWhile`
directly from the specification text (to be compared with the
accumulator loop `collectRuns` of the source). -/
def tableRunsSpec (minColumns : Nat) : List Line → List (List Line)
  | [] => []
  | line :: rest =>
    if meaningfulBlockCount line ≥ minColumns then
      (line :: rest.takeWhile (fun l => meaningfulBlockCount l ≥ minColumns)) ::
        tableRunsSpec minColumns
          (rest.dropWhile (fun l => meaningfulBlockCount l ≥ minColumns))
    else tableRunsSpec minColumns rest
termination_by l => l.length
decreasing_by
  · simpa using Nat.lt_succ_of_le ((List.dropWhile_sublist _).length_le)
  · simp

/-- Port of `buildPageMeta(text, pagesInput, layout, languages)`. -/
def buildPageMeta (text : JStr) (pagesInput : List JStr)
    (layout : Option LayoutModel) (languages : List String) : PageMeta :=
  let layoutPageCount := match layout with
    | none => 0
    | some l => l.pageCount
  let pages := normalizePageSegments pagesInput text
  let effectivePageCount :=
    if pages.length ≠ 0 then pages.length else layoutPageCount
  let languageHints :=
    if languages ≠ [] then languages else pages.map detectLanguageFromText
  { pages := pages
    pageCount := effectivePageCount
    pageTaggedText := buildPageTaggedText pages
    languages := languageHints
    layoutPageCount := layoutPageCount
    layout := layout
    ocrPatchedPages := none }

/-! ### The extraction orchestrator `readFileContent`

The orchestrator is modelled as a pure function of an environment record
`Env` carrying the outcome of every external collaborator.  Conventions:

* Each stage returns its result together with the list of trace entries it
  appends (`pushTrace` calls); a `TraceEntry` keeps the `step` and
  `status` fields that claims refer to (the free-text `detail` and the
  wall-clock timestamp are not modelled).
* An operation whose exception escapes `readFileContent` (the initial
  `FileReader`/`toArrayBuffer` read, the Base64 preparation, and the
  image-path `readAsDataURL` re-read of the file) is an `Except` in the
  environment, and its failure makes the model return `Except.error ()`.
* The Cloudinary block of the pdf branch is not modelled: every upload
  helper it calls catches its own failures and returns `null`, and the
  block only adds the `pageImages`/`cloudinary` metadata fields, which no
  claim mentions and which no later stage reads.
* `onLog` callbacks and the SHA-256 digest do not influence control flow
  and are carried opaquely (`hashSha256`). -/

/-- One diagnostic record as appended by `pushTrace(trace, step, detail,
status)`. -/
structure TraceEntry where
  step : String
  status : String
deriving Repr, DecidableEq

/-- Append one entry, as `pushTrace` does (default status `info`). -/
def pushTrace (trace : List TraceEntry) (step : String)
    (status : String := "info") : List TraceEntry :=
  trace ++ [{ step := step, status := status }]

/-- Declared attributes of the uploaded `File` object. -/
structure FileInfo where
  name : JStr
  ftype : JStr
  size : Nat
deriving Repr, DecidableEq

/-- Result shape shared by `renderPdfWithPdfjs` and `extractDocx`. -/
structure ExtractOutcome where
  text : JStr
  pages : List JStr
  layout : Option LayoutModel
  languages : List String
deriving Repr, DecidableEq

/-- Port of `renderPdfWithPdfjs(buffer, trace)`.  The pdf.js interaction
is abstracted at the boundary of the per-page `pageText` values the loop
computes from the positioned items: `pdfjsPages?` is `none` when pdf.js
loading/parsing throws (the outer `catch`), otherwise the list of page
texts (one per document page, possibly empty). -/
def renderPdfWithPdfjs (pdfjsPages? : Option (List JStr)) :
    ExtractOutcome × List TraceEntry :=
  match pdfjsPages? with
  | none =>
    ({ text := [], pages := [], layout := none, languages := [] },
      pushTrace [] "pdfjs" "error")
  | some rawPages =>
    let pages := rawPages.filter (· ≠ [])
    let combined := trimJs (joinSep [0x0A] pages)
    let languages := rawPages.map detectLanguageFromText
    ({ text := combined
       pages := pages
       layout := some { pageCount := rawPages.length, languages := languages }
       languages := languages },
      pushTrace [] "pdfjs" "info")

/-- The zip/XML outcome feeding `extractDocx`: loading the archive can
throw (caught), `word/document.xml` can be absent, or the paragraph run
texts (`w:p` joined `w:t` children, before trimming) are produced. -/
inductive DocxCase
  | zipError
  | missingDocumentXml
  | parsed (paragraphs : List JStr)
deriving Repr, DecidableEq

/-- Port of `extractDocx(buffer, trace)`. -/
def extractDocx (c : DocxCase) : ExtractOutcome × List TraceEntry :=
  match c with
  | .zipError =>
    ({ text := [], pages := [], layout := none, languages := [] },
      pushTrace [] "docx" "error")
  | .missingDocumentXml =>
    ({ text := [], pages := [], layout := none, languages := [] },
      pushTrace [] "docx" "warn")
  | .parsed paragraphs =>
    let lines := (paragraphs.map trimJs).filter (· ≠ [])
    let combined := joinSep [0x0A] lines
    let pages := [combined]
    let layout := buildPlainLayout pages
    ({ text := combined, pages := pages, layout := some layout
       languages := layout.languages },
      pushTrace [] "docx" "info")

/-- Per-page outcome inside the full-document OCR loop of `ocrPdf`. -/
inductive OcrPageCase
  | recognized (text : JStr)
  | emptyRecognition
  | recognitionError
  | noContext
deriving Repr, DecidableEq

/-- Result shape of `ocrPdf`. -/
structure OcrResult where
  text : JStr
  preview : JStr
  pages : List JStr
deriving Repr, DecidableEq

/-- The text list accumulated by the `ocrPdf` page loop: a recognised
page contributes its whitespace-normalised text, an empty or failed
recognition contributes the empty string (plus a warn entry), and a page
without a 2d context is skipped entirely. -/
def ocrPdfLoop : List OcrPageCase → List JStr × List TraceEntry
  | [] => ([], [])
  | c :: rest =>
    let (texts, t) := ocrPdfLoop rest
    match c with
    | .recognized text => (trimJs (collapseWs text) :: texts, t)
    | .emptyRecognition => ([] :: texts, t)
    | .recognitionError => ([] :: texts, pushTrace [] "ocr" "warn" ++ t)
    | .noContext => (texts, t)

/-- Port of `ocrPdf(buffer, trace, pageLimit)`.  `tesseract` records
whether the OCR engine loaded; `doc?` is `none` when pdf.js loading,
document parsing or page rendering throws (the outer `catch`), otherwise
the per-page recognition outcomes for the pages the loop visits (at most
`pageLimit`); `preview` abstracts the first rendered page's data URL. -/
def ocrPdf (tesseract : Bool) (doc? : Option (List OcrPageCase))
    (preview : JStr) : OcrResult × List TraceEntry :=
  if !tesseract then
    ({ text := [], preview := [], pages := [] }, pushTrace [] "ocr" "warn")
  else
    match doc? with
    | none =>
      ({ text := [], preview := [], pages := [] }, pushTrace [] "ocr" "error")
    | some pageCases =>
      let (texts, t) := ocrPdfLoop pageCases
      let combined := trimJs (joinSep [0x0A] texts)
      let pages := normalizePageSegments texts combined
      ({ text := combined, preview := preview, pages := pages },
        t ++ pushTrace [] "ocr" "info")

/-- Per-page outcome inside the adaptive OCR loop of `ocrPdfPages`. -/
inductive AdaptiveCase
  | recognized (text : JStr)
  | pageError
  | noContext
deriving Repr, DecidableEq

/-- The page loop of `ocrPdfPages`: visits the target pages in order,
skips pages beyond the document, records non-empty normalised
recognitions. -/
def ocrPdfPagesLoop (numPages : Nat) (recognize : Nat → AdaptiveCase) :
    List Nat → List (Nat × JStr) × List TraceEntry
  | [] => ([], [])
  | p :: rest =>
    let (results, t) := ocrPdfPagesLoop numPages recognize rest
    if p > numPages then (results, t)
    else
      match recognize p with
      | .recognized text =>
        let normalized := trimJs (collapseWs text)
        if normalized ≠ [] then ((p, normalized) :: results, t)
        else (results, t)
      | .pageError => (results, pushTrace [] "ocr-adaptive" "warn" ++ t)
      | .noContext => (results, t)

/-- Port of `ocrPdfPages(buffer, pagesToProcess, trace)`.  `canvas` and
`tesseract` record capability checks; `doc?` is the page count of the
freshly parsed document or `none` when parsing throws; `recognize`
abstracts the render-and-recognise body for each page number.  The
returned association list models the insertion-ordered `Map` (targets are
visited in ascending order). -/
def ocrPdfPages (canvas tesseract : Bool) (doc? : Option Nat)
    (recognize : Nat → AdaptiveCase) (pagesToProcess : List Nat) :
    List (Nat × JStr) × List TraceEntry :=
  if pagesToProcess = [] then ([], [])
  else if !canvas then ([], pushTrace [] "ocr-adaptive" "warn")
  else
    let targets :=
      List.insertionSort (· ≤ ·) ((pagesToProcess.filter (1 ≤ ·)).dedup)
    if targets = [] then ([], [])
    else if !tesseract then ([], pushTrace [] "ocr-adaptive" "warn")
    else
      match doc? with
      | none => ([], pushTrace [] "ocr-adaptive" "error")
      | some numPages =>
        let (results, t) := ocrPdfPagesLoop numPages recognize targets
        if results ≠ [] then (results, t ++ pushTrace [] "ocr-adaptive" "info")
        else (results, t)

/-- The remote extraction payload `{ text, meta: { pages, extractor } }`. -/
structure ServerPayload where
  text : Option JStr
  metaPages : Option (List JStr)
  metaExtractor : Option String
deriving Repr, DecidableEq

/-- The paths through `serverExtractText`. -/
inductive ServerCase
  | fetchUnavailable
  | apiBaseEmpty
  | httpNotOk (status : Nat)
  | requestError
  | ok (payload : ServerPayload)
deriving Repr, DecidableEq

/-- Port of `serverExtractText(file, trace)`: every failure path returns
`null` with a trace entry, never an exception. -/
def serverExtractText (c : ServerCase) :
    Option ServerPayload × List TraceEntry :=
  match c with
  | .fetchUnavailable => (none, pushTrace [] "server" "warn")
  | .apiBaseEmpty => (none, pushTrace [] "server" "warn")
  | .httpNotOk status =>
    (none, pushTrace [] "server" (if status = 404 then "error" else "warn"))
  | .requestError => (none, pushTrace [] "server" "error")
  | .ok payload => (some payload, pushTrace [] "server" "info")

/-- The subset of `baseMeta` the claims can observe. -/
structure BaseMeta where
  originalName : JStr
  originalType : JStr
  originalSize : Nat
  fileBase64 : JStr
  hasAttachment : Bool
  hashSha256 : Option JStr
deriving Repr, DecidableEq

/-- The `meta` object of a `readFileContent` result.  Spreads of absent
groups (`extraMeta = {}` on some paths) are modelled by `Option`. -/
structure MetaModel where
  extractor : String
  strategy : String
  usedOcr : Bool
  quality : Rat
  trace : List TraceEntry
  base : Option BaseMeta
  pageInfo : Option PageMeta
deriving Repr, DecidableEq

/-- A `readFileContent` result. -/
structure ResponseModel where
  text : JStr
  preview : JStr
  kind : String
  meta : MetaModel
deriving Repr, DecidableEq

/-- Port of the `buildResponse` helper. -/
def buildResponse (trace : List TraceEntry) (kind : String)
    (extractor : String) (text : JStr) (preview : JStr) (usedOcr : Bool)
    (base : Option BaseMeta) (pageInfo : Option PageMeta) : ResponseModel :=
  { text := text
    preview := preview
    kind := kind
    meta :=
      { extractor := extractor
        strategy := "auto"
        usedOcr := usedOcr
        quality := computeQuality text
        trace := trace
        base := base
        pageInfo := pageInfo } }

/-- The environment: outcomes of every external collaborator consulted by
one `readFileContent` run. -/
structure Env where
  file : Option FileInfo
  bufferRead : Except Unit (Option Bytes)
  base64 : Except Unit JStr
  hashSha256 : Option JStr
  pdfjsPages : Option (List JStr)
  serverCase : ServerCase
  ocrTesseract : Bool
  ocrDoc : Option (List OcrPageCase)
  ocrPreview : JStr
  adaptiveCanvas : Bool
  adaptiveTesseract : Bool
  adaptiveDoc : Option Nat
  adaptiveRecognize : Nat → AdaptiveCase
  imageDataUrl : Except Unit JStr
  imageTesseract : Bool
  imageRecognize : Except Unit JStr
  docxCase : DocxCase

/-- The list of low-quality page numbers computed by the pdf branch:
1-based indices of meta pages whose `computeQuality` falls below
`OCR_QUALITY_THRESHOLD`. -/
def lowQualityPagesOf (pages : List JStr) : List Nat :=
  ((mapIdxFrom (fun index page => (computeQuality page, index + 1)) 0
      pages).filter
    (fun entry => entry.1 < OCR_QUALITY_THRESHOLD)).map (·.2)

/-- Set `l[i] := a` when `i` is within bounds (the only case the patch
loop reaches, since every patched page number lies inside the page
list). -/
def setAt {α : Type _} (l : List α) (i : Nat) (a : α) : List α := l.set i a

/-- One iteration of the patch-splicing loop of the pdf branch: pad the
page list with empty pages up to `pageNumber`, then replace the page at
`pageNumber - 1`. -/
def splicePage (pages : List JStr) (pageNumber : Nat) (text : JStr) :
    List JStr :=
  let padded := pages ++ List.replicate (pageNumber - pages.length) []
  setAt padded (pageNumber - 1) text

/-- The patch-splicing loop over the adaptive OCR results: returns the
updated page list and the recorded patched page numbers, in iteration
order.  A patch whose normalised text is empty is skipped (the loop body
returns early). -/
def applyOcrPatches (pages : List JStr) :
    List (Nat × JStr) → List JStr × List Nat
  | [] => (pages, [])
  | (pageNumber, text) :: rest =>
    let normalized := trimJs (collapseWs text)
    if normalized = [] then applyOcrPatches pages rest
    else
      let (finalPages, recorded) :=
        applyOcrPatches (splicePage pages pageNumber normalized) rest
      (finalPages, pageNumber :: recorded)

/-- State of the pdf branch after the adaptive per-page OCR patch:
the (possibly updated) `pdfResult.text` and `pdfMeta`, plus appended
trace entries.  The parallel updates of `pdfResult.pages` and of the two
`languages` arrays are not modelled: after the patch the source never
reads them again (`pdfResult.text` is recomputed from `pdfMeta.pages`,
and the response metadata comes from `pdfMeta`). -/
def pdfAdaptivePatch (env : Env) (pdfText : JStr) (pdfMeta : PageMeta) :
    JStr × PageMeta × List TraceEntry :=
  let lowQualityPages := lowQualityPagesOf pdfMeta.pages
  if lowQualityPages = [] then (pdfText, pdfMeta, [])
  else
    let (patches, t) := ocrPdfPages env.adaptiveCanvas env.adaptiveTesseract
      env.adaptiveDoc env.adaptiveRecognize lowQualityPages
    let (newPages, patchedPages) := applyOcrPatches pdfMeta.pages patches
    if patchedPages = [] then (pdfText, pdfMeta, t)
    else
      let newMeta :=
        { pdfMeta with
          pages := newPages
          pageTaggedText := buildPageTaggedText newPages
          ocrPatchedPages := some patchedPages
          pageCount :=
            if newPages.length ≠ 0 then newPages.length
            else pdfMeta.layoutPageCount }
      (joinSep [0x0A] newPages, newMeta,
        t ++ pushTrace [] "ocr-adaptive" "info")

/-- The structural-extraction state of the pdf branch before the
acceptance decision: composition of `renderPdfWithPdfjs`,
`buildPageMeta` and the adaptive patch. -/
def pdfAfterPatch (env : Env) : JStr × PageMeta × List TraceEntry :=
  let (pdfResult, t1) := renderPdfWithPdfjs env.pdfjsPages
  let pdfMeta := buildPageMeta pdfResult.text pdfResult.pages
    pdfResult.layout pdfResult.languages
  let (text, meta, t2) := pdfAdaptivePatch env pdfResult.text pdfMeta
  (text, meta, t1 ++ t2)

/-- `serverResult?.meta?.extractor || 'server-pymupdf'`. -/
def serverExtractorTag (payload : ServerPayload) : String :=
  match payload.metaExtractor with
  | some tag => if tag = "" then "server-pymupdf" else tag
  | none => "server-pymupdf"

/-- The pdf branch of `readFileContent` after the structural stage:
accept non-empty structural text (tag `pdfjs` or `pdfjs-soft`), else try
the server, else full-document OCR, else the unreadable terminal state.
`trace0` holds the entries accumulated before the branch. -/
def pdfBranch (env : Env) (trace0 : List TraceEntry) (kind : String)
    (base : BaseMeta) : ResponseModel :=
  let (pdfText, pdfMeta, t1) := pdfAfterPatch env
  let trace1 := trace0 ++ t1
  let effectivePdfText := trimJs pdfText
  let pdfAssessment := evaluateSoftPdfAcceptance () effectivePdfText
  if effectivePdfText ≠ [] then
    let trace2 :=
      if !pdfAssessment.readable then pushTrace trace1 "pdfjs" "warn"
      else trace1
    buildResponse trace2 kind
      (if pdfAssessment.readable then "pdfjs" else "pdfjs-soft")
      effectivePdfText [] false (some base) (some pdfMeta)
  else
    let (serverResult, t2) := serverExtractText env.serverCase
    let trace2 := trace1 ++ t2
    match serverResult with
    | some payload =>
      match payload.text with
      | some serverText =>
        if serverText ≠ [] ∧ 40 ≤ (trimJs serverText).length then
          let serverPages := match payload.metaPages with
            | some pages => pages
            | none => [serverText]
          let serverLayout := buildPlainLayout serverPages
          let meta := buildPageMeta serverText serverPages (some serverLayout)
            serverLayout.languages
          let tag := serverExtractorTag payload
          buildResponse trace2 kind tag serverText [] (tag = "pdf-ocr")
            (some base) (some meta)
        else
          pdfOcrFallback env trace2 kind base
      | none => pdfOcrFallback env trace2 kind base
    | none => pdfOcrFallback env trace2 kind base
where
  /-- The full-document OCR fallback and the unreadable terminal state. -/
  pdfOcrFallback (env : Env) (trace2 : List TraceEntry) (kind : String)
      (base : BaseMeta) : ResponseModel :=
    let (ocrResult, t3) := ocrPdf env.ocrTesseract env.ocrDoc env.ocrPreview
    let trace3 := trace2 ++ t3
    if ocrResult.text ≠ [] ∧ 40 ≤ (trimJs ocrResult.text).length then
      let ocrPages :=
        if ocrResult.pages ≠ [] then ocrResult.pages else [ocrResult.text]
      let ocrLayout := buildPlainLayout ocrPages
      let meta := buildPageMeta ocrResult.text ocrPages (some ocrLayout)
        ocrLayout.languages
      buildResponse trace3 kind "pdf-ocr" ocrResult.text ocrResult.preview
        true (some base) (some meta)
    else
      buildResponse (pushTrace trace3 "pdf" "warn") kind "pdf-unreadable"
        [] [] false (some base) none

/-- Port of `readFileContent(file, options)`.  `Except.error ()` models an
exception escaping to the caller. -/
def readFileContent (env : Env) : Except Unit ResponseModel :=
  match env.file with
  | none =>
    .ok (buildResponse (pushTrace [] "input" "error") "unknown" "none"
      [] [] false none none)
  | some file =>
    match env.bufferRead with
    | .error _ => .error ()
    | .ok none => .error ()
    | .ok (some buffer) =>
      let detectedKind := detectFileKind file.name file.ftype buffer
      match env.base64 with
      | .error _ => .error ()
      | .ok fileBase64 =>
        let base : BaseMeta :=
          { originalName := if file.name ≠ [] then file.name else jstr "document"
            originalType :=
              if file.ftype ≠ [] then file.ftype
              else jstr "application/octet-stream"
            originalSize :=
              if file.size ≠ 0 then file.size else buffer.length
            fileBase64 := fileBase64
            hasAttachment := fileBase64 ≠ [] ∨ true
            hashSha256 := env.hashSha256 }
        if detectedKind = "docx" then
          let (docx, t) := extractDocx env.docxCase
          .ok (buildResponse t "docx" "docx" docx.text [] false (some base)
            (some (buildPageMeta docx.text docx.pages docx.layout
              docx.languages)))
        else if detectedKind = "text" then
          let trace1 := pushTrace [] "text" "info"
          let text := decodeTextBuffer buffer
          let pages := [text]
          let layout := buildPlainLayout pages
          .ok (buildResponse trace1 "text" "text" text [] false (some base)
            (some (buildPageMeta text pages (some layout) layout.languages)))
        else if detectedKind = "pdf" then
          .ok (pdfBranch env [] "pdf" base)
        else if detectedKind = "image" then
          let trace1 := pushTrace [] "image" "info"
          match env.imageDataUrl with
          | .error _ => .error ()
          | .ok dataUrl =>
            if !env.imageTesseract then
              .ok (buildResponse trace1 "image" "image-preview" [] dataUrl
                false (some base) (some (buildPageMeta [] [] none [])))
            else
              match env.imageRecognize with
              | .error _ =>
                .ok (buildResponse (pushTrace trace1 "image" "error") "image"
                  "image-preview" [] dataUrl false (some base)
                  (some (buildPageMeta [] [] none [])))
              | .ok recognizedText =>
                let pages := [recognizedText]
                let layout := buildPlainLayout pages
                .ok (buildResponse trace1 "image" "image-ocr" recognizedText
                  dataUrl true (some base)
                  (some (buildPageMeta recognizedText pages (some layout)
                    layout.languages)))
        else
          let trace1 := pushTrace [] "binary" "info"
          .ok (buildResponse trace1 "binary" "binary" []
            (if fileBase64 ≠ [] then
              jstr "data:application/octet-stream;base64," ++ fileBase64
            else []) false none none)

/-! ### Specification-side definitions

Definitions in this section are written from the wording of the
specification (not from the source) and exist to be compared with the
ported functions above. -/

/-- The whitespace-collapsed, trimmed text the quality assessor scores
(specification 4.6: `cleaned = collapseWhitespace(text)`). -/
def softCleaned (text : JStr) : JStr := trimJs (collapseWs text)

/-- The quality score of specification 4.6:
`length/80 + cyrillicCount*0.4 + digitCount*0.05 + uniqueCharCount*0.1`. -/
def softScore (text : JStr) : Rat :=
  let cleaned := softCleaned text
  (cleaned.length : Rat) / 80 +
    (countUnits isCyrillicUnit cleaned : Rat) * (4/10) +
    (countUnits isDigitUnit cleaned : Rat) * (5/100) +
    (uniqueUnitCount cleaned : Rat) * (1/10)

/-- The acceptance predicate of specification 4.6 (any disjunct
suffices). -/
def softAcceptSpec (text : JStr) : Prop :=
  let cleaned := softCleaned text
  let length : Rat := cleaned.length
  let cyrillic : Rat := countUnits isCyrillicUnit cleaned
  let digits : Rat := countUnits isDigitUnit cleaned
  length ≥ 200 ∨ (length ≥ 120 ∧ cyrillic > 40) ∨
    (length ≥ 120 ∧ digits > 30) ∨
    (length ≥ 70 ∧ cyrillic ≥ 20 ∧ digits ≥ 2) ∨ softScore text ≥ 12

instance (text : JStr) : Decidable (softAcceptSpec text) := by
  unfold softAcceptSpec; infer_instance

/-- The page metadata of the pdf branch before the adaptive patch. -/
def pdfStructMeta (env : Env) : PageMeta :=
  let (pdfResult, _) := renderPdfWithPdfjs env.pdfjsPages
  buildPageMeta pdfResult.text pdfResult.pages pdfResult.layout
    pdfResult.languages

/-- The effective structural text of the pdf branch (after the adaptive
patch, trimmed), whose emptiness decides the fall-through to the remote
service. -/
def pdfEffectiveText (env : Env) : JStr := trimJs (pdfAfterPatch env).1

/-! ### Concrete inputs used by counterexamples and witnesses -/

/-- An inert environment: a plain-text file; every collaborator that the
taken path never consults is set to its most failing value. -/
def envText : Env :=
  { file := some { name := jstr "notes.txt", ftype := jstr "text/plain", size := 5 }
    bufferRead := .ok (some (jstr "hello"))
    base64 := .ok (jstr "aGVsbG8=")
    hashSha256 := none
    pdfjsPages := none
    serverCase := .requestError
    ocrTesseract := false
    ocrDoc := none
    ocrPreview := []
    adaptiveCanvas := false
    adaptiveTesseract := false
    adaptiveDoc := none
    adaptiveRecognize := fun _ => .noContext
    imageDataUrl := .ok []
    imageTesseract := false
    imageRecognize := .error ()
    docxCase := .zipError }

/-- Environment refuting C1 as stated: the structural pass yields the
short (hence unacceptable) text `abc`, and the remote service stands
ready with a long answer, yet the pipeline keeps `abc`. -/
def envC1 : Env :=
  { envText with
    file := some { name := jstr "doc.pdf", ftype := jstr "application/pdf", size := 8 }
    bufferRead := .ok (some (jstr "%PDF-1.4"))
    base64 := .ok (jstr "JVBERi0xLjQ=")
    pdfjsPages := some [jstr "abc"]
    serverCase := .ok
      { text := some (List.replicate 200 0x61)
        metaPages := none
        metaExtractor := none } }

/-- Environment witnessing the amended C1: empty structural text, failing
remote service, unavailable OCR. -/
def envC1W : Env :=
  { envC1 with
    pdfjsPages := some []
    serverCase := .requestError }

/-- Environment refuting C10 as stated: the remote service answers with
the extractor tag `image-ocr`, which the response copies while computing
`usedOcr` as `extractor === "pdf-ocr"`. -/
def envC10 : Env :=
  { envC1 with
    pdfjsPages := some []
    serverCase := .ok
      { text := some (List.replicate 40 0x61)
        metaPages := none
        metaExtractor := some "image-ocr" } }

/-- Environment witnessing C6: page 1 is long enough to meet the quality
threshold, page 2 falls below it and is patched by the adaptive OCR. -/
def envC6 : Env :=
  { envC1 with
    pdfjsPages := some [List.replicate 480 0x61, jstr "x"]
    adaptiveCanvas := true
    adaptiveTesseract := true
    adaptiveDoc := some 2
    adaptiveRecognize := fun p =>
      if p = 2 then .recognized (jstr "patched page text") else .noContext }

/-- Environment witnessing C8: the initial buffer read rejects. -/
def envC8 : Env := { envText with bufferRead := .error () }

/-- A three-block table line (witnessing that a run of a single such line
already produces a table region, contrary to C2 as stated). -/
def lineC2 : Line :=
  { y := 3
    blocks :=
      [{ text := jstr "a", bbox := { x1 := 10, y1 := 0, x2 := 20, y2 := 5 } },
       { text := jstr "b", bbox := { x1 := 300, y1 := 0, x2 := 320, y2 := 5 } },
       { text := jstr "c", bbox := { x1 := 15, y1 := 10, x2 := 25, y2 := 15 } }]}

/-- Two blocks with distinct centers, for the C9 witness. -/
def blockLeft : Block :=
  { text := jstr "l", bbox := { x1 := 10, y1 := 0, x2 := 20, y2 := 5 } }

/-- Companion block for the C9 witness. -/
def blockRight : Block :=
  { text := jstr "r", bbox := { x1 := 300, y1 := 0, x2 := 320, y2 := 5 } }

/-- Projection of a non-throwing `readFileContent` run, for stating
closed facts about concrete environments (the placeholder is never
reached in those statements, which also pin `Except.isOk`). -/
def responseOf (e : Except Unit ResponseModel) : ResponseModel :=
  match e with
  | .ok r => r
  | .error _ => buildResponse [] "unknown" "none" [] [] false none none

/-- Total-order instances for the center ordering of `detectColumns`,
and a proof-side characterisation of its cluster-splitting loop. -/
instance : IsTotal CenterEntry centerLE :=
  ⟨fun a b => le_total a.center b.center⟩

instance : IsTrans CenterEntry centerLE :=
  ⟨fun _ _ _ hab hbc => le_trans hab hbc⟩

/-- The largest center the splitting loop absorbs into the cluster under
construction, computed from the center sequence alone: follow the chain
from `prev` until the first gap exceeding the threshold. -/
def gapBound (g : Rat) : Rat → List Rat → Rat
  | prev, [] => prev
  | prev, c :: rest => if c - prev > g then prev else gapBound g c rest

/-- The entries the splitting loop appends to the cluster under
construction, and the remaining suffix starting at the first oversized
gap. -/
def gapSplitFirst (g : Rat) : Rat → List CenterEntry →
    List CenterEntry × List CenterEntry
  | _, [] => ([], [])
  | prev, e :: rest =>
    if e.center - prev > g then ([], e :: rest)
    else
      let (a, b) := gapSplitFirst g e.center rest
      (e :: a, b)

/-! ## Theorems -/

/-- Helper: boolean prefix test agrees with `List.IsPrefix`. -/
lemma listStartsWith_iff_isPrefix (p s : List Nat) :
    listStartsWith p s = true ↔ p <+: s := by
  induction p generalizing s with
  | nil => simp [listStartsWith]
  | cons a p ih =>
    cases s with
    | nil => simp [listStartsWith]
    | cons b s =>
      rw [listStartsWith]
      simp [List.cons_prefix_cons, ih, Bool.and_eq_true, beq_iff_eq]

set_option maxRecDepth 8000 in
/-- C3: `evaluateSoftPdfAcceptance` is a pure function of its text
argument (the `assessment` argument is ignored); over the
whitespace-collapsed trimmed text it computes the score
`length/80 + cyrillic*0.4 + digits*0.05 + unique*0.1`, and it reports the
text readable exactly under the acceptance predicate of the
specification. -/
theorem evaluateSoftPdfAcceptance_pure_and_spec {α β : Sort _} (a : α)
    (b : β) (text : JStr) :
    evaluateSoftPdfAcceptance a text = evaluateSoftPdfAcceptance b text ∧
    ((evaluateSoftPdfAcceptance a text).readable = true ↔
      softAcceptSpec text) ∧
    (softCleaned text ≠ [] →
      (evaluateSoftPdfAcceptance a text).score =
        ((softScore text : Rat) : WithBot Rat)) := by
  refine ⟨rfl, ?_, ?_⟩
  · unfold evaluateSoftPdfAcceptance softAcceptSpec softScore softCleaned
    by_cases hc : trimJs (collapseWs text) = []
    · simp only [hc, if_pos rfl]
      simp [uniqueUnitCount, countUnits]
    · simp only [if_neg hc]
      simp only [Bool.or_eq_true, Bool.and_eq_true, decide_eq_true_eq,
        MIN_USEFUL_TEXT_LENGTH]
      norm_num
      tauto
  · intro hc
    unfold evaluateSoftPdfAcceptance softScore softCleaned at *
    simp only [if_neg hc]

/-- Witness for C3 at the concrete text `abc`. -/
theorem evaluateSoftPdfAcceptance_pure_and_spec_witness :
    (evaluateSoftPdfAcceptance (0 : Nat) (jstr "abc")).score =
      ((softScore (jstr "abc") : Rat) : WithBot Rat) :=
  (evaluateSoftPdfAcceptance_pure_and_spec (0 : Nat) "x" (jstr "abc")).2.2
    (by decide)

/-- C4: a buffer whose first bytes are `%PDF` is classified `pdf`
whatever the declared name and MIME type say (the magic-byte disjunct of
the first rule fires unconditionally). -/
theorem detectFileKind_pdf_magic (name ftype : JStr) (buffer : Bytes)
    (h : listStartsWith (jstr "%PDF") buffer = true) :
    detectFileKind name ftype buffer = "pdf" := by
  rw [listStartsWith_iff_isPrefix] at h
  obtain ⟨rest, rfl⟩ := h
  simp [detectFileKind, jstr, List.take]

/-- Witness for C4: declared DOCX name and MIME type lose against the
magic bytes. -/
theorem detectFileKind_pdf_magic_witness :
    detectFileKind (jstr "report.docx")
      (jstr "application/vnd.openxmlformats-officedocument.wordprocessingml.document")
      (jstr "%PDF-1.4") = "pdf" :=
  detectFileKind_pdf_magic _ _ _ (by decide)
lemma collectRuns_spec_aux (mc : Nat) :
    ∀ n (lines : List Line), lines.length ≤ n →
      (collectRuns mc [] lines = tableRunsSpec mc lines) ∧
      (∀ cur, cur ≠ [] →
        collectRuns mc cur lines =
          (cur ++ lines.takeWhile (fun l => meaningfulBlockCount l ≥ mc)) ::
            tableRunsSpec mc
              (lines.dropWhile (fun l => meaningfulBlockCount l ≥ mc))) := by
  intro n
  induction n with
  | zero =>
    intro lines hlen
    have : lines = [] := List.eq_nil_of_length_eq_zero (Nat.le_zero.mp hlen)
    subst this
    refine ⟨by simp [collectRuns, tableRunsSpec], ?_⟩
    intro cur hcur
    simp [collectRuns, tableRunsSpec, hcur]
  | succ n ih =>
    intro lines hlen
    cases lines with
    | nil =>
      refine ⟨by simp [collectRuns, tableRunsSpec], ?_⟩
      intro cur hcur
      simp [collectRuns, tableRunsSpec, hcur]
    | cons line rest =>
      have hrest : rest.length ≤ n := by simp only [List.length_cons] at hlen; omega
      by_cases hq : meaningfulBlockCount line ≥ mc
      · constructor
        · rw [collectRuns, tableRunsSpec]
          simp only [if_pos hq]
          exact ((ih rest hrest).2 [line] (by simp)).trans (by simp [hq])
        · intro cur hcur
          rw [collectRuns]
          simp only [if_pos hq]
          rw [(ih rest hrest).2 (cur ++ [line]) (by simp)]
          simp [hq]
      · constructor
        · rw [collectRuns, tableRunsSpec]
          simp only [if_neg hq]
          exact (ih rest hrest).1
        · intro cur hcur
          rw [collectRuns]
          simp only [if_neg hq, if_pos hcur]
          rw [(ih rest hrest).1, List.takeWhile_cons, List.dropWhile_cons]
          simp only [hq, decide_False, Bool.false_eq_true, if_false,
            List.append_nil, decide_eq_true_eq, if_neg hq]
          rw [tableRunsSpec]
          simp only [if_neg hq]

lemma tableRunsSpec_runs_qualify (mc : Nat) :
    ∀ n (lines : List Line), lines.length ≤ n →
      ∀ run ∈ tableRunsSpec mc lines,
        run ≠ [] ∧ ∀ l ∈ run, mc ≤ meaningfulBlockCount l := by
  intro n
  induction n with
  | zero =>
    intro lines hlen
    have : lines = [] := List.eq_nil_of_length_eq_zero (Nat.le_zero.mp hlen)
    subst this
    simp [tableRunsSpec]
  | succ n ih =>
    intro lines hlen
    cases lines with
    | nil => simp [tableRunsSpec]
    | cons line rest =>
      have hrest : rest.length ≤ n := by simp only [List.length_cons] at hlen; omega
      rw [tableRunsSpec]
      by_cases hq : meaningfulBlockCount line ≥ mc
      · simp only [if_pos hq]
        intro run hrun
        rcases List.mem_cons.mp hrun with rfl | hrun2
        · refine ⟨by simp, ?_⟩
          intro l hl
          rcases List.mem_cons.mp hl with rfl | hl2
          · exact hq
          · exact of_decide_eq_true (List.mem_takeWhile_imp (p := fun l => decide (meaningfulBlockCount l ≥ mc)) hl2)
        · exact ih _ ((List.dropWhile_sublist _).length_le.trans hrest) run hrun2
      · simp only [if_neg hq]
        exact ih _ hrest

/-- C2 counterexample: a single line with three non-blank blocks — a run
of length 1 < 3 — already produces one `TableRegion`, where the claim
requires runs of at least 3 lines to produce a table and shorter runs to
produce none. -/
theorem detectTableRows_short_run_counterexample :
    3 ≤ meaningfulBlockCount lineC2 ∧
      (detectTableRows [lineC2] 3).length = 1 := by decide

/-- C2 as amended: `detectTableRows` produces one `TableRegion` exactly
for each maximal non-empty run of consecutive lines having at least 3
blocks with non-blank text — with no minimum on the run length — the
region being built from the run's lines with cells sorted by X
(`tableRegionOfRun`); every line of every run qualifies. -/
theorem detectTableRows_maximal_runs (lines : List Line) :
    detectTableRows lines 3 =
      mapIdxFrom tableRegionOfRun 0 (tableRunsSpec 3 lines) ∧
    ∀ run ∈ tableRunsSpec 3 lines,
      run ≠ [] ∧ ∀ l ∈ run, 3 ≤ meaningfulBlockCount l := by
  constructor
  · unfold detectTableRows
    rw [(collectRuns_spec_aux 3 lines.length lines le_rfl).1]
  · exact tableRunsSpec_runs_qualify 3 lines.length lines le_rfl
/-- Helper: collapsing whitespace never empties a non-empty string. -/
lemma collapseWs_ne_nil (t : JStr) (h : t ≠ []) : collapseWs t ≠ [] := by
  cases t with
  | nil => exact absurd rfl h
  | cons u rest =>
    unfold collapseWs collapseWsAux
    by_cases hs : isJsSpace u = true <;> simp [hs]

/-- Helper: a candidate scores `-Infinity` exactly when its text is
empty. -/
lemma scoreTextCandidate_eq_bot_iff (t : JStr) :
    scoreTextCandidate t = ⊥ ↔ t = [] := by
  constructor
  · intro h
    by_contra hne
    have hcol := collapseWs_ne_nil t hne
    unfold scoreTextCandidate at h
    rw [if_neg hne] at h
    simp only [List.length_eq_zero] at h
    rw [if_neg hcol] at h
    exact (WithBot.coe_ne_bot) h
  · intro h
    simp [scoreTextCandidate, h]

/-- Helper: the candidate loop returns either its initial accumulator
(when no candidate beats it) or the first candidate attaining the
maximal score above the accumulator. -/
lemma bestCandidate_spec (buffer : Bytes) :
    ∀ (encs : List TextEncoding) (best : WithBot Rat × JStr),
      (bestCandidate buffer encs best = best ∧
        ∀ e ∈ encs, scoreTextCandidate (decodeUsing e buffer) ≤ best.1) ∨
      (∃ i, ∃ h : i < encs.length,
        bestCandidate buffer encs best =
          (scoreTextCandidate (decodeUsing (encs.get ⟨i, h⟩) buffer),
            decodeUsing (encs.get ⟨i, h⟩) buffer) ∧
        best.1 < scoreTextCandidate (decodeUsing (encs.get ⟨i, h⟩) buffer) ∧
        (∀ j (hj : j < encs.length),
          scoreTextCandidate (decodeUsing (encs.get ⟨j, hj⟩) buffer) ≤
            scoreTextCandidate (decodeUsing (encs.get ⟨i, h⟩) buffer)) ∧
        (∀ j (hj : j < encs.length), j < i →
          scoreTextCandidate (decodeUsing (encs.get ⟨j, hj⟩) buffer) <
            scoreTextCandidate (decodeUsing (encs.get ⟨i, h⟩) buffer))) := by
  intro encs
  induction encs with
  | nil => intro best; exact Or.inl ⟨rfl, by simp⟩
  | cons e rest ih =>
    intro best
    rw [bestCandidate]
    by_cases hemp : decodeUsing e buffer = []
    · simp only [if_pos hemp]
      have hbot : scoreTextCandidate (decodeUsing e buffer) = ⊥ :=
        (scoreTextCandidate_eq_bot_iff _).mpr hemp
      rcases ih best with ⟨heq, hle⟩ | ⟨i, hi, heq, hgt, hmax, hfirst⟩
      · refine Or.inl ⟨heq, ?_⟩
        intro x hx
        rcases List.mem_cons.mp hx with rfl | hx2
        · rw [hbot]; exact bot_le
        · exact hle x hx2
      · refine Or.inr ⟨i + 1, Nat.succ_lt_succ hi, ?_, ?_, ?_, ?_⟩
        · simpa using heq
        · simpa using hgt
        · intro j hj
          cases j with
          | zero => simp only [List.get]; rw [hbot]; exact bot_le
          | succ j => simpa using hmax j (Nat.lt_of_succ_lt_succ hj)
        · intro j hj hji
          cases j with
          | zero =>
            simp only [List.get]
            rw [hbot]
            exact lt_of_le_of_lt bot_le (by simpa using hgt)
          | succ j =>
            simpa using hfirst j (Nat.lt_of_succ_lt_succ hj)
              (Nat.lt_of_succ_lt_succ hji)
    · simp only [if_neg hemp]
      by_cases hscore : best.1 < scoreTextCandidate (decodeUsing e buffer)
      · simp only [if_pos hscore]
        rcases ih (scoreTextCandidate (decodeUsing e buffer),
            decodeUsing e buffer) with ⟨heq, hle⟩ | ⟨i, hi, heq, hgt, hmax, hfirst⟩
        · refine Or.inr ⟨0, Nat.succ_pos _, ?_, ?_, ?_, ?_⟩
          · simpa using heq
          · simpa using hscore
          · intro j hj
            cases j with
            | zero => simp
            | succ j =>
              have := hle _ (List.get_mem rest j (Nat.lt_of_succ_lt_succ hj))
              simpa using this
          · intro j hj hji
            exact absurd hji (Nat.not_lt_zero j)
        · refine Or.inr ⟨i + 1, Nat.succ_lt_succ hi, ?_, ?_, ?_, ?_⟩
          · simpa using heq
          · exact lt_trans hscore (by simpa using hgt)
          · intro j hj
            cases j with
            | zero =>
              simp only [List.get]
              exact le_of_lt (by simpa using hgt)
            | succ j => simpa using hmax j (Nat.lt_of_succ_lt_succ hj)
          · intro j hj hji
            cases j with
            | zero =>
              simp only [List.get]
              exact (by simpa using hgt)
            | succ j =>
              simpa using hfirst j (Nat.lt_of_succ_lt_succ hj)
                (Nat.lt_of_succ_lt_succ hji)
      · simp only [if_neg hscore]
        rcases ih best with ⟨heq, hle⟩ | ⟨i, hi, heq, hgt, hmax, hfirst⟩
        · refine Or.inl ⟨heq, ?_⟩
          intro x hx
          rcases List.mem_cons.mp hx with rfl | hx2
          · exact not_lt.mp hscore
          · exact hle x hx2
        · refine Or.inr ⟨i + 1, Nat.succ_lt_succ hi, ?_, ?_, ?_, ?_⟩
          · simpa using heq
          · simpa using hgt
          · intro j hj
            cases j with
            | zero =>
              simp only [List.get]
              exact le_trans (not_lt.mp hscore) (le_of_lt (by simpa using hgt))
            | succ j => simpa using hmax j (Nat.lt_of_succ_lt_succ hj)
          · intro j hj hji
            cases j with
            | zero =>
              simp only [List.get]
              exact lt_of_le_of_lt (not_lt.mp hscore) (by simpa using hgt)
            | succ j =>
              simpa using hfirst j (Nat.lt_of_succ_lt_succ hj)
                (Nat.lt_of_succ_lt_succ hji)

/-- C5: `decodeTextBuffer` returns the strict UTF-8 decode when that
decode succeeds with visible text; otherwise (strict failure, or the
empty buffer whose strict decode is the falsy empty string) it returns
the text of the candidate encoding with the highest
`scoreTextCandidate`, earlier encodings in the list winning ties (the
chosen index is the first to attain the maximum). -/
theorem decodeTextBuffer_spec (buffer : Bytes) :
    (decodeUsingUtf8Strict buffer ≠ [] →
      decodeTextBuffer buffer = decodeUsingUtf8Strict buffer) ∧
    (decodeUsingUtf8Strict buffer = [] →
      ∃ i, ∃ h : i < textCandidates.length,
        decodeTextBuffer buffer =
          decodeUsing (textCandidates.get ⟨i, h⟩) buffer ∧
        (∀ j (hj : j < textCandidates.length),
          scoreTextCandidate (decodeUsing (textCandidates.get ⟨j, hj⟩) buffer) ≤
            scoreTextCandidate (decodeUsing (textCandidates.get ⟨i, h⟩) buffer)) ∧
        (∀ j (hj : j < textCandidates.length), j < i →
          scoreTextCandidate (decodeUsing (textCandidates.get ⟨j, hj⟩) buffer) <
            scoreTextCandidate (decodeUsing (textCandidates.get ⟨i, h⟩) buffer))) := by
  constructor
  · intro h
    simp [decodeTextBuffer, h]
  · intro h
    have hcond : ¬(decodeUsingUtf8Strict buffer ≠ []) := by simp [h]
    unfold decodeTextBuffer
    simp only [if_neg hcond]
    rcases bestCandidate_spec buffer textCandidates (⊥, []) with
      ⟨heq, hle⟩ | ⟨i, hi, heq, _hgt, hmax, hfirst⟩
    · have hallbot : ∀ e ∈ textCandidates,
          scoreTextCandidate (decodeUsing e buffer) = ⊥ := by
        intro e he
        exact le_bot_iff.mp (hle e he)
      have hget0 : textCandidates.get ⟨0, by simp [textCandidates]⟩ =
          TextEncoding.utf8 := rfl
      refine ⟨0, by simp [textCandidates], ?_, ?_, ?_⟩
      · rw [heq, hget0]
        have := (scoreTextCandidate_eq_bot_iff _).mp
          (hallbot TextEncoding.utf8 (by simp [textCandidates]))
        rw [this]
      · intro j hj
        rw [hallbot _ (List.get_mem textCandidates j hj)]
        exact bot_le
      · intro j hj hji
        exact absurd hji (Nat.not_lt_zero j)
    · exact ⟨i, hi, by rw [heq], hmax, hfirst⟩

/-- Witness for C5: the lone byte `0xC8` is invalid strict UTF-8, so the
candidate-selection branch of the theorem applies. -/
theorem decodeTextBuffer_spec_witness :
    (∃ i, ∃ h : i < textCandidates.length,
      decodeTextBuffer [0xC8] =
        decodeUsing (textCandidates.get ⟨i, h⟩) [0xC8] ∧
      (∀ j (hj : j < textCandidates.length),
        scoreTextCandidate (decodeUsing (textCandidates.get ⟨j, hj⟩) [0xC8]) ≤
          scoreTextCandidate (decodeUsing (textCandidates.get ⟨i, h⟩) [0xC8])) ∧
      (∀ j (hj : j < textCandidates.length), j < i →
        scoreTextCandidate (decodeUsing (textCandidates.get ⟨j, hj⟩) [0xC8]) <
          scoreTextCandidate (decodeUsing (textCandidates.get ⟨i, h⟩) [0xC8]))) :=
  (decodeTextBuffer_spec [0xC8]).2 (by decide)
set_option maxHeartbeats 1000000 in
/-- C1 counterexample: a PDF whose structural text `abc` fails the
acceptance predicate is returned as-is with extractor tag `pdfjs-soft`;
the remote extraction service (standing ready with a 200-character
answer) is never consulted — no `server` trace entry exists — contrary
to the claim that failing acceptance triggers the remote fallback. -/
theorem readFileContent_soft_accept_counterexample :
    (evaluateSoftPdfAcceptance () (jstr "abc")).readable = false ∧
    (readFileContent envC1).isOk = true ∧
    (responseOf (readFileContent envC1)).meta.extractor = "pdfjs-soft" ∧
    (responseOf (readFileContent envC1)).text = jstr "abc" ∧
    ((responseOf (readFileContent envC1)).meta.trace.all
      (fun e => e.step ≠ "server")) = true ∧
    envC1.serverCase =
      ServerCase.ok ⟨some (List.replicate 200 0x61), none, none⟩ := by
  have hq : computeQuality (jstr "abc") = 1/1000 := by
    unfold computeQuality
    rw [if_neg (by decide : ¬(jstr "abc" = [])),
      (by decide : trimJs (collapseWs (jstr "abc")) = jstr "abc"),
      if_neg (by decide : ¬(jstr "abc" = [])),
      (by decide : countUnits isCyrillicUnit (jstr "abc") = 0),
      (by decide : (jstr "abc").length = 3)]
    norm_num [toFixed3]
  have hlow : lowQualityPagesOf [jstr "abc"] = [1] := by
    unfold lowQualityPagesOf
    simp only [mapIdxFrom, List.filter, hq]
    rw [decide_eq_true (by norm_num [OCR_QUALITY_THRESHOLD] :
      (1/1000 : Rat) < OCR_QUALITY_THRESHOLD)]
    simp
  have hlang : detectLanguageFromText (jstr "abc") = "en" := by
    unfold detectLanguageFromText
    rw [(by decide : stripWs (jstr "abc") = jstr "abc")]
    rw [if_neg (by decide : ¬(jstr "abc" = []))]
    rw [(by decide : countUnits isCyrillicUnit (jstr "abc") = 0),
      (by decide : countUnits isLatinUnit (jstr "abc") = 3)]
    norm_num
  have hread : (evaluateSoftPdfAcceptance () (jstr "abc")).readable = false := by
    unfold evaluateSoftPdfAcceptance
    rw [(by decide : trimJs (collapseWs (jstr "abc")) = jstr "abc")]
    rw [if_neg (by decide : ¬(jstr "abc" = []))]
    simp only [(by decide : countUnits isCyrillicUnit (jstr "abc") = 0),
      (by decide : countUnits isDigitUnit (jstr "abc") = 0),
      (by decide : uniqueUnitCount (jstr "abc") = 3),
      (by decide : (jstr "abc").length = 3)]
    norm_num [MIN_USEFUL_TEXT_LENGTH]
  have hrender : renderPdfWithPdfjs (envC1.pdfjsPages) =
      ({ text := jstr "abc", pages := [jstr "abc"],
         layout := some { pageCount := 1, languages := ["en"] },
         languages := ["en"] }, [{ step := "pdfjs", status := "info" }]) := by
    show renderPdfWithPdfjs (some [jstr "abc"]) = _
    simp only [renderPdfWithPdfjs]
    rw [(by decide : List.filter (fun x => decide (x ≠ [])) [jstr "abc"] = [jstr "abc"])]
    rw [(by decide : trimJs (joinSep [0x0A] [jstr "abc"]) = jstr "abc")]
    simp [pushTrace, hlang]
  have hmeta : buildPageMeta (jstr "abc") [jstr "abc"]
      (some { pageCount := 1, languages := ["en"] }) ["en"] =
      { pages := [jstr "abc"],
        pageCount := 1,
        pageTaggedText := buildPageTaggedText [jstr "abc"],
        languages := ["en"],
        layoutPageCount := 1,
        layout := some { pageCount := 1, languages := ["en"] },
        ocrPatchedPages := none } := by
    unfold buildPageMeta normalizePageSegments
    rw [(by decide : (List.map (fun s => trimJs (collapseWs s)) [jstr "abc"]).filter (· ≠ []) = [jstr "abc"])]
    simp
  have hocrp : ocrPdfPages envC1.adaptiveCanvas envC1.adaptiveTesseract
      envC1.adaptiveDoc envC1.adaptiveRecognize [1] =
      ([], [{ step := "ocr-adaptive", status := "warn" }]) := by
    show ocrPdfPages false false none _ [1] = _
    simp [ocrPdfPages, pushTrace]
  have hpatch : pdfAdaptivePatch envC1 (jstr "abc")
      { pages := [jstr "abc"],
        pageCount := 1,
        pageTaggedText := buildPageTaggedText [jstr "abc"],
        languages := ["en"],
        layoutPageCount := 1,
        layout := some { pageCount := 1, languages := ["en"] },
        ocrPatchedPages := none } =
      (jstr "abc",
        { pages := [jstr "abc"],
          pageCount := 1,
          pageTaggedText := buildPageTaggedText [jstr "abc"],
          languages := ["en"],
          layoutPageCount := 1,
          layout := some { pageCount := 1, languages := ["en"] },
          ocrPatchedPages := none },
        [{ step := "ocr-adaptive", status := "warn" }]) := by
    unfold pdfAdaptivePatch
    simp only [hlow, hocrp]
    simp [applyOcrPatches]
  have hafter : pdfAfterPatch envC1 = (jstr "abc",
      { pages := [jstr "abc"],
        pageCount := 1,
        pageTaggedText := buildPageTaggedText [jstr "abc"],
        languages := ["en"],
        layoutPageCount := 1,
        layout := some { pageCount := 1, languages := ["en"] },
        ocrPatchedPages := none },
      [{ step := "pdfjs", status := "info" },
       { step := "ocr-adaptive", status := "warn" }]) := by
    unfold pdfAfterPatch
    rw [hrender]
    simp only [hmeta, hpatch]
    simp
  have hbranch : ∀ base, pdfBranch envC1 [] "pdf" base =
      buildResponse
        [{ step := "pdfjs", status := "info" },
         { step := "ocr-adaptive", status := "warn" },
         { step := "pdfjs", status := "warn" }]
        "pdf" "pdfjs-soft" (jstr "abc") [] false (some base)
        (some { pages := [jstr "abc"],
                pageCount := 1,
                pageTaggedText := buildPageTaggedText [jstr "abc"],
                languages := ["en"],
                layoutPageCount := 1,
                layout := some { pageCount := 1, languages := ["en"] },
                ocrPatchedPages := none }) := by
    intro base
    unfold pdfBranch
    rw [hafter]
    simp only [ne_eq]
    rw [(by decide : trimJs (jstr "abc") = jstr "abc")]
    simp only [hread]
    rw [if_pos (by decide : ¬(jstr "abc" = []))]
    simp [pushTrace]
  have hrun : readFileContent envC1 =
      Except.ok (pdfBranch envC1 [] "pdf"
        { originalName := jstr "doc.pdf",
          originalType := jstr "application/pdf",
          originalSize := 8,
          fileBase64 := jstr "JVBERi0xLjQ=",
          hasAttachment := true,
          hashSha256 := none }) := by
    unfold readFileContent
    simp only [show envC1.file =
        some ⟨jstr "doc.pdf", jstr "application/pdf", 8⟩ from rfl,
      show envC1.bufferRead = Except.ok (some (jstr "%PDF-1.4")) from rfl,
      show envC1.base64 = Except.ok (jstr "JVBERi0xLjQ=") from rfl,
      show envC1.hashSha256 = (none : Option JStr) from rfl]
    rw [(by decide : detectFileKind (jstr "doc.pdf") (jstr "application/pdf")
      (jstr "%PDF-1.4") = "pdf")]
    rw [if_neg (by decide : ¬("pdf" = "docx")),
      if_neg (by decide : ¬("pdf" = "text")), if_pos rfl]
    refine congrArg Except.ok (congrArg _ ?_)
    decide
  rw [hrun, hbranch]
  refine ⟨hread, rfl, rfl, rfl, by decide, rfl⟩
/-- C1 as amended: the remote extraction service is consulted only when
the structural text (after the adaptive patch) is empty; in that case,
when the remote service also fails or returns text shorter than 40
characters, full-document OCR runs; and when OCR yields fewer than 40
usable characters, the result has empty text, a `warn` trace entry for
the `pdf` step, and extractor tag `pdf-unreadable` (a `server` trace
entry witnesses that the remote service was consulted). -/
theorem readFileContent_pdf_fallback_amended (env : Env) (f : FileInfo)
    (buf : Bytes) (b64 : JStr)
    (hfile : env.file = some f)
    (hbuf : env.bufferRead = Except.ok (some buf))
    (hb64 : env.base64 = Except.ok b64)
    (hkind : detectFileKind f.name f.ftype buf = "pdf")
    (hempty : pdfEffectiveText env = [])
    (hserver : ∀ p, env.serverCase = ServerCase.ok p →
      ∀ t, p.text = some t → t = [] ∨ (trimJs t).length < 40)
    (hocr : (ocrPdf env.ocrTesseract env.ocrDoc env.ocrPreview).1.text = [] ∨
      (trimJs (ocrPdf env.ocrTesseract env.ocrDoc
        env.ocrPreview).1.text).length < 40) :
    ∃ r, readFileContent env = Except.ok r ∧
      r.text = [] ∧ r.meta.extractor = "pdf-unreadable" ∧
      r.meta.usedOcr = false ∧
      (∃ e ∈ r.meta.trace, e.step = "server") ∧
      TraceEntry.mk "pdf" "warn" ∈ r.meta.trace := by
  unfold readFileContent
  simp only [hfile, hbuf, hb64]
  rw [hkind]
  rw [if_neg (by decide : ¬("pdf" = "docx")),
    if_neg (by decide : ¬("pdf" = "text")), if_pos rfl]
  unfold pdfBranch
  rcases hap : pdfAfterPatch env with ⟨pt, pm, t1⟩
  unfold pdfEffectiveText at hempty
  rw [hap] at hempty
  simp only [] at hempty
  simp only [hempty, ne_eq, not_true_eq_false, if_false, reduceIte]
  have hfall : ∀ (trace2 : List TraceEntry) (base : BaseMeta),
      (∃ e ∈ trace2, e.step = "server") →
      ∃ r, pdfBranch.pdfOcrFallback env trace2 "pdf" base = r ∧
        r.text = [] ∧ r.meta.extractor = "pdf-unreadable" ∧
        r.meta.usedOcr = false ∧
        (∃ e ∈ r.meta.trace, e.step = "server") ∧
        TraceEntry.mk "pdf" "warn" ∈ r.meta.trace := by
    intro trace2 base hs
    unfold pdfBranch.pdfOcrFallback
    rcases ho : ocrPdf env.ocrTesseract env.ocrDoc env.ocrPreview with ⟨ores, t3⟩
    rw [ho] at hocr
    simp only [] at hocr
    simp only []
    have hcond : ¬(ores.text ≠ [] ∧ 40 ≤ (trimJs ores.text).length) := by
      rcases hocr with h | h
      · intro hc; exact hc.1 h
      · intro hc; omega
    rw [if_neg hcond]
    obtain ⟨e, he, hes⟩ := hs
    refine ⟨_, rfl, rfl, rfl, rfl, ⟨e, ?_, hes⟩, ?_⟩
    · simp [buildResponse, pushTrace]
      tauto
    · simp [buildResponse, pushTrace]
  rcases hsc : env.serverCase with _ | _ | st | _ | p
  · simp only [serverExtractText]
    obtain ⟨r, hr, h2, h3, h4, h5, h6⟩ := hfall ([] ++ t1 ++ pushTrace [] "server" "warn")
      _ ⟨TraceEntry.mk "server" "warn", by simp [pushTrace], rfl⟩
    exact ⟨r, by rw [hr], h2, h3, h4, h5, h6⟩
  · simp only [serverExtractText]
    obtain ⟨r, hr, h2, h3, h4, h5, h6⟩ := hfall ([] ++ t1 ++ pushTrace [] "server" "warn")
      _ ⟨TraceEntry.mk "server" "warn", by simp [pushTrace], rfl⟩
    exact ⟨r, by rw [hr], h2, h3, h4, h5, h6⟩
  · simp only [serverExtractText]
    obtain ⟨r, hr, h2, h3, h4, h5, h6⟩ := hfall
      ([] ++ t1 ++ pushTrace [] "server" (if st = 404 then "error" else "warn"))
      _ ⟨TraceEntry.mk "server" (if st = 404 then "error" else "warn"),
        by simp [pushTrace], rfl⟩
    exact ⟨r, by rw [hr], h2, h3, h4, h5, h6⟩
  · simp only [serverExtractText]
    obtain ⟨r, hr, h2, h3, h4, h5, h6⟩ := hfall ([] ++ t1 ++ pushTrace [] "server" "error")
      _ ⟨TraceEntry.mk "server" "error", by simp [pushTrace], rfl⟩
    exact ⟨r, by rw [hr], h2, h3, h4, h5, h6⟩
  · simp only [serverExtractText]
    rcases hpt : p.text with _ | t
    · obtain ⟨r, hr, h2, h3, h4, h5, h6⟩ := hfall ([] ++ t1 ++ pushTrace [] "server" "info")
        _ ⟨TraceEntry.mk "server" "info", by simp [pushTrace], rfl⟩
      exact ⟨r, by rw [hr], h2, h3, h4, h5, h6⟩
    · have hshort := hserver p hsc t hpt
      have hcond : ¬(t ≠ [] ∧ 40 ≤ (trimJs t).length) := by
        rcases hshort with h | h
        · intro hc; exact hc.1 h
        · intro hc; omega
      simp only []
      rw [if_neg hcond]
      obtain ⟨r, hr, h2, h3, h4, h5, h6⟩ := hfall ([] ++ t1 ++ pushTrace [] "server" "info")
        _ ⟨TraceEntry.mk "server" "info", by simp [pushTrace], rfl⟩
      exact ⟨r, by rw [hr], h2, h3, h4, h5, h6⟩

/-- Witness for the amended C1 at a concrete environment: empty
structural text, a throwing remote request, no OCR engine. -/
theorem readFileContent_pdf_fallback_amended_witness :
    ∃ r, readFileContent envC1W = Except.ok r ∧
      r.text = [] ∧ r.meta.extractor = "pdf-unreadable" ∧
      r.meta.usedOcr = false ∧
      (∃ e ∈ r.meta.trace, e.step = "server") ∧
      TraceEntry.mk "pdf" "warn" ∈ r.meta.trace :=
  readFileContent_pdf_fallback_amended envC1W
    ⟨jstr "doc.pdf", jstr "application/pdf", 8⟩
    (jstr "%PDF-1.4") (jstr "JVBERi0xLjQ=") rfl rfl rfl (by decide)
    (by decide)
    (fun p hp => ServerCase.noConfusion
      (show ServerCase.requestError = ServerCase.ok p from hp))
    (Or.inl (by decide))
/-- C10 counterexample: when the remote fallback payload carries the
extractor tag `image-ocr`, the response copies the tag while computing
`usedOcr` as `extractor === "pdf-ocr"`, so `usedOcr` is false although
the extractor reads `image-ocr`. -/
theorem readFileContent_usedOcr_counterexample :
    (readFileContent envC10).isOk = true ∧
    (responseOf (readFileContent envC10)).meta.extractor = "image-ocr" ∧
    (responseOf (readFileContent envC10)).meta.usedOcr = false :=
  ⟨by decide, by decide, by decide⟩

/-- Helper: the OCR fallback tail of the pdf branch satisfies the
usedOcr/extractor correspondence. -/
lemma pdfOcrFallback_usedOcr_iff (env : Env) (trace2 : List TraceEntry)
    (kind : String) (base : BaseMeta) :
    ((pdfBranch.pdfOcrFallback env trace2 kind base).meta.usedOcr = true ↔
      (pdfBranch.pdfOcrFallback env trace2 kind base).meta.extractor =
          "pdf-ocr" ∨
        (pdfBranch.pdfOcrFallback env trace2 kind base).meta.extractor =
          "image-ocr") := by
  unfold pdfBranch.pdfOcrFallback
  rcases ocrPdf env.ocrTesseract env.ocrDoc env.ocrPreview with ⟨ores, t3⟩
  simp only []
  by_cases hc : ores.text ≠ [] ∧ 40 ≤ (trimJs ores.text).length
  · rw [if_pos hc]
    simp [buildResponse]
  · rw [if_neg hc]
    simp [buildResponse]

/-- Helper: the pdf branch satisfies the usedOcr/extractor
correspondence whenever the remote payload does not claim the tag
`image-ocr`. -/
lemma pdfBranch_usedOcr_iff (env : Env) (trace0 : List TraceEntry)
    (kind : String) (base : BaseMeta)
    (hsrv : ∀ p, env.serverCase = ServerCase.ok p →
      serverExtractorTag p ≠ "image-ocr") :
    ((pdfBranch env trace0 kind base).meta.usedOcr = true ↔
      (pdfBranch env trace0 kind base).meta.extractor = "pdf-ocr" ∨
        (pdfBranch env trace0 kind base).meta.extractor = "image-ocr") := by
  unfold pdfBranch
  rcases pdfAfterPatch env with ⟨pt, pm, t1⟩
  simp only []
  by_cases hne : trimJs pt ≠ []
  · rw [if_pos hne]
    by_cases hr : (evaluateSoftPdfAcceptance () (trimJs pt)).readable
    · simp [buildResponse, hr]
    · simp [buildResponse, hr]
  · rw [if_neg hne]
    rcases hsc : env.serverCase with _ | _ | st | _ | p
    · simp only [serverExtractText]
      exact pdfOcrFallback_usedOcr_iff env _ kind base
    · simp only [serverExtractText]
      exact pdfOcrFallback_usedOcr_iff env _ kind base
    · simp only [serverExtractText]
      exact pdfOcrFallback_usedOcr_iff env _ kind base
    · simp only [serverExtractText]
      exact pdfOcrFallback_usedOcr_iff env _ kind base
    · simp only [serverExtractText]
      rcases p.text with _ | t
      · simp only []
        exact pdfOcrFallback_usedOcr_iff env _ kind base
      · simp only []
        by_cases hc : t ≠ [] ∧ 40 ≤ (trimJs t).length
        · rw [if_pos hc]
          have htag := hsrv p hsc
          simp only [buildResponse]
          constructor
          · intro h
            left
            exact of_decide_eq_true h
          · intro h
            rcases h with h | h
            · exact decide_eq_true h
            · exact absurd h htag
        · rw [if_neg hc]
          exact pdfOcrFallback_usedOcr_iff env _ kind base

/-- C10 as amended: in every result of `readFileContent`, `meta.usedOcr`
is true exactly when `meta.extractor` is `pdf-ocr` or `image-ocr`,
provided the remote-fallback payload (when that path is taken) does not
itself declare the extractor tag `image-ocr`; in particular a PDF
accepted from structural extraction — even with adaptively OCR-patched
pages — reports `usedOcr = false`. -/
theorem readFileContent_usedOcr_amended (env : Env) (r : ResponseModel)
    (hsrv : ∀ p, env.serverCase = ServerCase.ok p →
      serverExtractorTag p ≠ "image-ocr")
    (hr : readFileContent env = Except.ok r) :
    (r.meta.usedOcr = true ↔
      r.meta.extractor = "pdf-ocr" ∨ r.meta.extractor = "image-ocr") := by
  unfold readFileContent at hr
  rcases hfl : env.file with _ | f
  · rw [hfl] at hr
    simp only [Except.ok.injEq] at hr
    subst hr
    simp [buildResponse]
  · rw [hfl] at hr
    rcases hbr : env.bufferRead with _ | ob
    · rw [hbr] at hr
      exact absurd hr (by simp)
    · rcases ob with _ | buffer
      · rw [hbr] at hr
        exact absurd hr (by simp)
      · rw [hbr] at hr
        simp only [] at hr
        rcases hb64 : env.base64 with _ | b64
        · rw [hb64] at hr
          exact absurd hr (by simp)
        · rw [hb64] at hr
          simp only [] at hr
          by_cases hk1 : detectFileKind f.name f.ftype buffer = "docx"
          · rw [if_pos hk1] at hr
            rcases extractDocx env.docxCase with ⟨docx, t⟩
            simp only [Except.ok.injEq] at hr
            subst hr
            simp [buildResponse]
          · rw [if_neg hk1] at hr
            by_cases hk2 : detectFileKind f.name f.ftype buffer = "text"
            · rw [if_pos hk2] at hr
              simp only [Except.ok.injEq] at hr
              subst hr
              simp [buildResponse]
            · rw [if_neg hk2] at hr
              by_cases hk3 : detectFileKind f.name f.ftype buffer = "pdf"
              · rw [if_pos hk3] at hr
                simp only [Except.ok.injEq] at hr
                subst hr
                exact pdfBranch_usedOcr_iff env [] "pdf" _ hsrv
              · rw [if_neg hk3] at hr
                by_cases hk4 : detectFileKind f.name f.ftype buffer = "image"
                · rw [if_pos hk4] at hr
                  rcases hdu : env.imageDataUrl with _ | dataUrl
                  · rw [hdu] at hr
                    exact absurd hr (by simp)
                  · rw [hdu] at hr
                    simp only [] at hr
                    by_cases htess : env.imageTesseract = true
                    · rw [if_neg (by simp [htess])] at hr
                      rcases hreco : env.imageRecognize with _ | t
                      · rw [hreco] at hr
                        simp only [Except.ok.injEq] at hr
                        subst hr
                        simp [buildResponse]
                      · rw [hreco] at hr
                        simp only [Except.ok.injEq] at hr
                        subst hr
                        simp [buildResponse]
                    · have : env.imageTesseract = false := by
                        revert htess; cases env.imageTesseract <;> simp
                      rw [if_pos (by simp [this])] at hr
                      simp only [Except.ok.injEq] at hr
                      subst hr
                      simp [buildResponse]
                · rw [if_neg hk4] at hr
                  simp only [Except.ok.injEq] at hr
                  subst hr
                  simp [buildResponse]

/-- Witness for the amended C10 at the plain-text environment. -/
theorem readFileContent_usedOcr_amended_witness :
    ((responseOf (readFileContent envText)).meta.usedOcr = true ↔
      (responseOf (readFileContent envText)).meta.extractor = "pdf-ocr" ∨
      (responseOf (readFileContent envText)).meta.extractor = "image-ocr") :=
  readFileContent_usedOcr_amended envText
    (responseOf (readFileContent envText))
    (fun p hp => ServerCase.noConfusion
      (show ServerCase.requestError = ServerCase.ok p from hp))
    rfl
/-- Helper: `buildPageMeta` derives its tagged text from its own page
list. -/
lemma buildPageMeta_tagged (t : JStr) (p : List JStr)
    (l : Option LayoutModel) (g : List String) :
    (buildPageMeta t p l g).pageTaggedText =
      buildPageTaggedText ((buildPageMeta t p l g).pages) := rfl

/-- Helper: the adaptive patch preserves the derivation of the tagged
text from the page list (recomputing it after splicing). -/
lemma pdfAdaptivePatch_tagged (env : Env) (pt : JStr) (pm : PageMeta)
    (h : pm.pageTaggedText = buildPageTaggedText pm.pages) :
    ((pdfAdaptivePatch env pt pm).2.1).pageTaggedText =
      buildPageTaggedText ((pdfAdaptivePatch env pt pm).2.1.pages) := by
  unfold pdfAdaptivePatch
  by_cases hl : lowQualityPagesOf pm.pages = []
  · rw [if_pos hl]
    exact h
  · rw [if_neg hl]
    rcases ocrPdfPages env.adaptiveCanvas env.adaptiveTesseract
      env.adaptiveDoc env.adaptiveRecognize (lowQualityPagesOf pm.pages) with
      ⟨patches, t⟩
    simp only []
    rcases applyOcrPatches pm.pages patches with ⟨newPages, patched⟩
    simp only []
    by_cases hp : patched = []
    · rw [if_pos hp]
      exact h
    · rw [if_neg hp]

/-- Helper: the patched page metadata of the pdf branch still derives its
tagged text from its page list. -/
lemma pdfAfterPatch_tagged (env : Env) :
    ((pdfAfterPatch env).2.1).pageTaggedText =
      buildPageTaggedText ((pdfAfterPatch env).2.1.pages) := by
  unfold pdfAfterPatch
  rcases renderPdfWithPdfjs env.pdfjsPages with ⟨pr, t1⟩
  simp only []
  exact pdfAdaptivePatch_tagged env _ _ rfl

/-- Helper: every page-metadata object attached by the OCR fallback tail
derives its tagged text from its page list. -/
lemma pdfOcrFallback_tagged (env : Env) (trace2 : List TraceEntry)
    (kind : String) (base : BaseMeta) (pm : PageMeta)
    (h : (pdfBranch.pdfOcrFallback env trace2 kind base).meta.pageInfo =
      some pm) :
    pm.pageTaggedText = buildPageTaggedText pm.pages := by
  unfold pdfBranch.pdfOcrFallback at h
  rcases ho : ocrPdf env.ocrTesseract env.ocrDoc env.ocrPreview with ⟨ores, t3⟩
  rw [ho] at h
  simp only [] at h
  by_cases hc : ores.text ≠ [] ∧ 40 ≤ (trimJs ores.text).length
  · rw [if_pos hc] at h
    simp only [buildResponse, Option.some.injEq] at h
    subst h
    rfl
  · rw [if_neg hc] at h
    simp [buildResponse] at h

/-- Helper: every page-metadata object attached by the pdf branch
derives its tagged text from its page list. -/
lemma pdfBranch_tagged (env : Env) (trace0 : List TraceEntry)
    (kind : String) (base : BaseMeta) (pm : PageMeta)
    (h : (pdfBranch env trace0 kind base).meta.pageInfo = some pm) :
    pm.pageTaggedText = buildPageTaggedText pm.pages := by
  have hafter := pdfAfterPatch_tagged env
  unfold pdfBranch at h
  rcases hap : pdfAfterPatch env with ⟨pt, pm0, t1⟩
  rw [hap] at h
  rw [hap] at hafter
  simp only [] at hafter
  simp only [] at h
  by_cases hne : trimJs pt ≠ []
  · rw [if_pos hne] at h
    simp only [buildResponse, Option.some.injEq] at h
    subst h
    exact hafter
  · rw [if_neg hne] at h
    rcases hsc : env.serverCase with _ | _ | st | _ | p
    all_goals rw [hsc] at h
    all_goals simp only [serverExtractText] at h
    · exact pdfOcrFallback_tagged env _ kind base pm h
    · exact pdfOcrFallback_tagged env _ kind base pm h
    · exact pdfOcrFallback_tagged env _ kind base pm h
    · exact pdfOcrFallback_tagged env _ kind base pm h
    · rcases hpt : p.text with _ | t
      all_goals rw [hpt] at h
      all_goals simp only [] at h
      · exact pdfOcrFallback_tagged env _ kind base pm h
      · by_cases hc : t ≠ [] ∧ 40 ≤ (trimJs t).length
        · rw [if_pos hc] at h
          simp only [buildResponse, Option.some.injEq] at h
          subst h
          rfl
        · rw [if_neg hc] at h
          exact pdfOcrFallback_tagged env _ kind base pm h

/-- C7: in every `readFileContent` result that carries page metadata, the
page-tagged text equals the deterministic join `buildPageTaggedText` of
the page list (page `i` contributes `<<<PAGE i>>>`, a newline and the
page text, pages joined by blank lines), the empty page list yielding the
empty string; the round-trip survives the adaptive per-page OCR patch,
which recomputes the tagged text from the patched pages. -/
theorem readFileContent_pageTaggedText_roundtrip (env : Env)
    (r : ResponseModel) (pm : PageMeta)
    (hr : readFileContent env = Except.ok r)
    (hpm : r.meta.pageInfo = some pm) :
    pm.pageTaggedText = buildPageTaggedText pm.pages ∧
      buildPageTaggedText [] = [] := by
  refine ⟨?_, rfl⟩
  unfold readFileContent at hr
  rcases hfl : env.file with _ | f
  · rw [hfl] at hr
    simp only [Except.ok.injEq] at hr
    subst hr
    simp [buildResponse] at hpm
  · rw [hfl] at hr
    rcases hbr : env.bufferRead with _ | ob
    · rw [hbr] at hr
      exact absurd hr (by simp)
    · rcases ob with _ | buffer
      · rw [hbr] at hr
        exact absurd hr (by simp)
      · rw [hbr] at hr
        simp only [] at hr
        rcases hb64 : env.base64 with _ | b64
        · rw [hb64] at hr
          exact absurd hr (by simp)
        · rw [hb64] at hr
          simp only [] at hr
          by_cases hk1 : detectFileKind f.name f.ftype buffer = "docx"
          · rw [if_pos hk1] at hr
            rcases extractDocx env.docxCase with ⟨docx, t⟩
            simp only [Except.ok.injEq] at hr
            subst hr
            simp only [buildResponse, Option.some.injEq] at hpm
            subst hpm
            rfl
          · rw [if_neg hk1] at hr
            by_cases hk2 : detectFileKind f.name f.ftype buffer = "text"
            · rw [if_pos hk2] at hr
              simp only [Except.ok.injEq] at hr
              subst hr
              simp only [buildResponse, Option.some.injEq] at hpm
              subst hpm
              rfl
            · rw [if_neg hk2] at hr
              by_cases hk3 : detectFileKind f.name f.ftype buffer = "pdf"
              · rw [if_pos hk3] at hr
                simp only [Except.ok.injEq] at hr
                subst hr
                exact pdfBranch_tagged env [] "pdf" _ pm hpm
              · rw [if_neg hk3] at hr
                by_cases hk4 : detectFileKind f.name f.ftype buffer = "image"
                · rw [if_pos hk4] at hr
                  rcases hdu : env.imageDataUrl with _ | dataUrl
                  · rw [hdu] at hr
                    exact absurd hr (by simp)
                  · rw [hdu] at hr
                    simp only [] at hr
                    by_cases htess : env.imageTesseract = true
                    · rw [if_neg (by simp [htess])] at hr
                      rcases hreco : env.imageRecognize with _ | t
                      · rw [hreco] at hr
                        simp only [Except.ok.injEq] at hr
                        subst hr
                        simp only [buildResponse, Option.some.injEq] at hpm
                        subst hpm
                        rfl
                      · rw [hreco] at hr
                        simp only [Except.ok.injEq] at hr
                        subst hr
                        simp only [buildResponse, Option.some.injEq] at hpm
                        subst hpm
                        rfl
                    · have hft : env.imageTesseract = false := by
                        revert htess; cases env.imageTesseract <;> simp
                      rw [if_pos (by simp [hft])] at hr
                      simp only [Except.ok.injEq] at hr
                      subst hr
                      simp only [buildResponse, Option.some.injEq] at hpm
                      subst hpm
                      rfl
                · rw [if_neg hk4] at hr
                  simp only [Except.ok.injEq] at hr
                  subst hr
                  simp [buildResponse] at hpm

/-- Witness for C7 at the plain-text environment, whose result carries
page metadata. -/
theorem readFileContent_pageTaggedText_roundtrip_witness :
    ((responseOf (readFileContent envText)).meta.pageInfo.getD (buildPageMeta [] [] none [])).pageTaggedText =
      buildPageTaggedText
        (((responseOf (readFileContent envText)).meta.pageInfo.getD
          (buildPageMeta [] [] none [])).pages) ∧
    buildPageTaggedText [] = [] :=
  readFileContent_pageTaggedText_roundtrip envText
    (responseOf (readFileContent envText))
    ((responseOf (readFileContent envText)).meta.pageInfo.getD
      (buildPageMeta [] [] none []))
    rfl rfl
/-- Helper: a `pushTrace` result is never empty. -/
lemma pushTrace_ne_nil (t : List TraceEntry) (s st : String) :
    pushTrace t s st ≠ [] := by
  simp [pushTrace]

/-- Helper: `extractDocx` always records a trace entry. -/
lemma extractDocx_trace_ne (c : DocxCase) : (extractDocx c).2 ≠ [] := by
  cases c <;> simp [extractDocx, pushTrace]

/-- Helper: `ocrPdf` always records a trace entry. -/
lemma ocrPdf_trace_ne (t : Bool) (d : Option (List OcrPageCase)) (p : JStr) :
    (ocrPdf t d p).2 ≠ [] := by
  unfold ocrPdf
  by_cases ht : t = true
  · simp only [ht]
    rcases d with _ | cs
    · simp [pushTrace]
    · simp only []
      rcases ocrPdfLoop cs with ⟨texts, tr⟩
      simp [pushTrace]
  · have : t = false := by revert ht; cases t <;> simp
    simp [this, pushTrace]

/-- Helper: `serverExtractText` always records a trace entry. -/
lemma serverExtractText_trace_ne (c : ServerCase) :
    (serverExtractText c).2 ≠ [] := by
  cases c <;> simp [serverExtractText, pushTrace]

/-- Helper: the structural pdf stage always records a trace entry. -/
lemma pdfAfterPatch_trace_ne (env : Env) : (pdfAfterPatch env).2.2 ≠ [] := by
  unfold pdfAfterPatch
  rcases hr : renderPdfWithPdfjs env.pdfjsPages with ⟨pr, t1⟩
  have ht1 : t1 ≠ [] := by
    unfold renderPdfWithPdfjs at hr
    rcases hp : env.pdfjsPages with _ | raw
    all_goals rw [hp] at hr
    all_goals simp only [Prod.mk.injEq] at hr
    · rw [← hr.2]
      simp [pushTrace]
    · rw [← hr.2]
      simp [pushTrace]
  simp only []
  rcases pdfAdaptivePatch env pr.text (buildPageMeta pr.text pr.pages
    pr.layout pr.languages) with ⟨a, b, t2⟩
  simp only []
  intro hcon
  exact ht1 (List.append_eq_nil.mp hcon).1

/-- Helper: the OCR fallback tail always returns a non-empty trace. -/
lemma pdfOcrFallback_trace_ne (env : Env) (trace2 : List TraceEntry)
    (kind : String) (base : BaseMeta) :
    (pdfBranch.pdfOcrFallback env trace2 kind base).meta.trace ≠ [] := by
  unfold pdfBranch.pdfOcrFallback
  rcases ho : ocrPdf env.ocrTesseract env.ocrDoc env.ocrPreview with ⟨ores, t3⟩
  have ht3 : t3 ≠ [] := by
    have := ocrPdf_trace_ne env.ocrTesseract env.ocrDoc env.ocrPreview
    rw [ho] at this
    simpa using this
  simp only []
  by_cases hc : ores.text ≠ [] ∧ 40 ≤ (trimJs ores.text).length
  · rw [if_pos hc]
    simp only [buildResponse]
    intro hcon
    exact ht3 (List.append_eq_nil.mp hcon).2
  · rw [if_neg hc]
    simp only [buildResponse]
    exact pushTrace_ne_nil _ _ _

/-- Helper: the pdf branch always returns a non-empty trace. -/
lemma pdfBranch_trace_ne (env : Env) (trace0 : List TraceEntry)
    (kind : String) (base : BaseMeta) :
    (pdfBranch env trace0 kind base).meta.trace ≠ [] := by
  have hap2 := pdfAfterPatch_trace_ne env
  unfold pdfBranch
  rcases hap : pdfAfterPatch env with ⟨pt, pm0, t1⟩
  rw [hap] at hap2
  simp only [] at hap2
  simp only []
  have htr1 : trace0 ++ t1 ≠ [] := by
    intro hcon
    exact hap2 (List.append_eq_nil.mp hcon).2
  by_cases hne : trimJs pt ≠ []
  · rw [if_pos hne]
    by_cases hrd : (evaluateSoftPdfAcceptance () (trimJs pt)).readable
    · simp only [hrd, Bool.not_true, Bool.false_eq_true, if_false,
        buildResponse]
      exact htr1
    · have : (evaluateSoftPdfAcceptance () (trimJs pt)).readable = false := by
        revert hrd
        cases (evaluateSoftPdfAcceptance () (trimJs pt)).readable <;> simp
      simp only [this, Bool.not_false, if_true, buildResponse]
      exact pushTrace_ne_nil _ _ _
  · rw [if_neg hne]
    have hsrv := serverExtractText_trace_ne env.serverCase
    rcases hse : serverExtractText env.serverCase with ⟨res, t2⟩
    rw [hse] at hsrv
    simp only [] at hsrv
    simp only []
    have htr2 : trace0 ++ t1 ++ t2 ≠ [] := by
      intro hcon
      exact hsrv (List.append_eq_nil.mp hcon).2
    rcases res with _ | p
    · simp only []
      exact pdfOcrFallback_trace_ne env _ kind base
    · simp only []
      rcases p.text with _ | t
      · simp only []
        exact pdfOcrFallback_trace_ne env _ kind base
      · simp only []
        by_cases hc : t ≠ [] ∧ 40 ≤ (trimJs t).length
        · rw [if_pos hc]
          simp only [buildResponse]
          exact htr2
        · rw [if_neg hc]
          exact pdfOcrFallback_trace_ne env _ kind base

/-- C8: `readFileContent` throws only when acquiring or preparing the
file's bytes (the initial read, the null-buffer check, the Base64
conversion, or the image-path `readAsDataURL` re-read of the file);
every extraction stage catches its own failures, and in every other case
the caller receives a structurally valid result whose diagnostic trace
is non-empty. -/
theorem readFileContent_error_sources (env : Env) :
    (readFileContent env = Except.error () →
      env.bufferRead = Except.error () ∨ env.bufferRead = Except.ok none ∨
      env.base64 = Except.error () ∨ env.imageDataUrl = Except.error ()) ∧
    (∀ r, readFileContent env = Except.ok r → r.meta.trace ≠ []) := by
  constructor
  all_goals
    unfold readFileContent
    rcases hfl : env.file with _ | f
  · try simp only []
    intro h
    exact absurd h (by simp)
  · try simp only []
    rcases hbr : env.bufferRead with u | ob
    · intro _
      cases u
      exact Or.inl rfl
    · rcases ob with _ | buffer
      · intro _
        exact Or.inr (Or.inl rfl)
      · try simp only []
        try simp only []
        rcases hb64 : env.base64 with u | b64
        · intro _
          cases u
          exact Or.inr (Or.inr (Or.inl rfl))
        · try simp only []
          by_cases hk1 : detectFileKind f.name f.ftype buffer = "docx"
          · rw [if_pos hk1]
            rcases extractDocx env.docxCase with ⟨docx, t⟩
            intro h
            exact absurd h (by simp)
          · rw [if_neg hk1]
            by_cases hk2 : detectFileKind f.name f.ftype buffer = "text"
            · rw [if_pos hk2]
              intro h
              exact absurd h (by simp)
            · rw [if_neg hk2]
              by_cases hk3 : detectFileKind f.name f.ftype buffer = "pdf"
              · rw [if_pos hk3]
                intro h
                exact absurd h (by simp)
              · rw [if_neg hk3]
                by_cases hk4 : detectFileKind f.name f.ftype buffer = "image"
                · rw [if_pos hk4]
                  rcases hdu : env.imageDataUrl with u | dataUrl
                  · intro _
                    cases u
                    exact Or.inr (Or.inr (Or.inr rfl))
                  · try simp only []
                    try simp only []
                    by_cases htess : env.imageTesseract = true
                    · rw [if_neg (by simp [htess])]
                      rcases env.imageRecognize with _ | t
                      · intro h
                        exact absurd h (by simp)
                      · intro h
                        exact absurd h (by simp)
                    · have hft : env.imageTesseract = false := by
                        revert htess; cases env.imageTesseract <;> simp
                      rw [if_pos (by simp [hft])]
                      intro h
                      exact absurd h (by simp)
                · rw [if_neg hk4]
                  intro h
                  exact absurd h (by simp)
  · try simp only []
    intro r h
    simp only [Except.ok.injEq] at h
    subst h
    exact (by simp [buildResponse, pushTrace])
  · try simp only []
    rcases hbr : env.bufferRead with u | ob
    · try simp only []
      intro r h
      exact absurd h (by simp)
    · rcases ob with _ | buffer
      · try simp only []
        intro r h
        exact absurd h (by simp)
      · try simp only []
        try simp only []
        rcases hb64 : env.base64 with u | b64
        · try simp only []
          intro r h
          exact absurd h (by simp)
        · try simp only []
          intro r
          by_cases hk1 : detectFileKind f.name f.ftype buffer = "docx"
          · rw [if_pos hk1]
            have hdt := extractDocx_trace_ne env.docxCase
            rcases he : extractDocx env.docxCase with ⟨docx, t⟩
            rw [he] at hdt
            simp only [] at hdt
            intro h
            simp only [Except.ok.injEq] at h
            subst h
            simpa [buildResponse] using hdt
          · rw [if_neg hk1]
            by_cases hk2 : detectFileKind f.name f.ftype buffer = "text"
            · rw [if_pos hk2]
              intro h
              simp only [Except.ok.injEq] at h
              subst h
              exact (by simp [buildResponse, pushTrace])
            · rw [if_neg hk2]
              by_cases hk3 : detectFileKind f.name f.ftype buffer = "pdf"
              · rw [if_pos hk3]
                intro h
                simp only [Except.ok.injEq] at h
                subst h
                exact pdfBranch_trace_ne env [] "pdf" _
              · rw [if_neg hk3]
                by_cases hk4 : detectFileKind f.name f.ftype buffer = "image"
                · rw [if_pos hk4]
                  rcases hdu : env.imageDataUrl with u | dataUrl
                  · try simp only []
                    intro h
                    exact absurd h (by simp)
                  · try simp only []
                    try simp only []
                    by_cases htess : env.imageTesseract = true
                    · rw [if_neg (by simp [htess])]
                      rcases env.imageRecognize with _ | t
                      · intro h
                        simp only [Except.ok.injEq] at h
                        subst h
                        exact (by simp [buildResponse, pushTrace])
                      · intro h
                        simp only [Except.ok.injEq] at h
                        subst h
                        exact (by simp [buildResponse, pushTrace])
                    · have hft : env.imageTesseract = false := by
                        revert htess; cases env.imageTesseract <;> simp
                      rw [if_pos (by simp [hft])]
                      intro h
                      simp only [Except.ok.injEq] at h
                      subst h
                      exact (by simp [buildResponse, pushTrace])
                · rw [if_neg hk4]
                  intro h
                  simp only [Except.ok.injEq] at h
                  subst h
                  exact (by simp [buildResponse, pushTrace])

/-- Witness for C8: a failing initial read makes `readFileContent`
throw, and the error source is the buffer acquisition. -/
theorem readFileContent_error_sources_witness :
    envC8.bufferRead = Except.error () ∨
      envC8.bufferRead = Except.ok none ∨
      envC8.base64 = Except.error () ∨
      envC8.imageDataUrl = Except.error () :=
  (readFileContent_error_sources envC8).1 rfl
/-- Helper: every entry of the indexed quality map comes from a page of
the list, with the recorded number offset by the running index. -/
lemma mem_mapIdxFrom_quality (pages : List JStr) (n : Nat) (e : Rat × Nat)
    (he : e ∈ mapIdxFrom (fun index page => (computeQuality page, index + 1))
      n pages) :
    ∃ j pg, pages[j]? = some pg ∧ e.1 = computeQuality pg ∧
      e.2 = n + j + 1 := by
  induction pages generalizing n with
  | nil => simp [mapIdxFrom] at he
  | cons p rest ih =>
    rw [mapIdxFrom] at he
    rcases List.mem_cons.mp he with h1 | h2
    · exact ⟨0, p, by simp, by rw [h1], by rw [h1]⟩
    · rcases ih (n + 1) h2 with ⟨j, pg, hj, h1, h2⟩
      exact ⟨j + 1, pg, by simpa using hj, h1, by omega⟩

/-- Helper: every low-quality page number is the successor of an index of
a page scoring below the threshold. -/
lemma mem_lowQualityPagesOf (pages : List JStr) (q : Nat)
    (hq : q ∈ lowQualityPagesOf pages) :
    ∃ j pg, pages[j]? = some pg ∧
      computeQuality pg < OCR_QUALITY_THRESHOLD ∧ q = j + 1 := by
  unfold lowQualityPagesOf at hq
  rcases List.mem_map.mp hq with ⟨e, he, hval⟩
  rcases List.mem_filter.mp he with ⟨hmem, hfilt⟩
  rcases mem_mapIdxFrom_quality pages 0 e hmem with ⟨j, pg, hj, h1, h2⟩
  refine ⟨j, pg, hj, ?_, by omega⟩
  rw [← h1]
  exact of_decide_eq_true hfilt

/-- Helper: the adaptive page loop only reports pages it was asked to
process. -/
lemma ocrPdfPagesLoop_keys (numPages : Nat) (reco : Nat → AdaptiveCase)
    (targets : List Nat) (pt : Nat × JStr)
    (hpt : pt ∈ (ocrPdfPagesLoop numPages reco targets).1) :
    pt.1 ∈ targets := by
  induction targets with
  | nil => simp [ocrPdfPagesLoop] at hpt
  | cons p rest ih =>
    rw [ocrPdfPagesLoop] at hpt
    rcases hrec : ocrPdfPagesLoop numPages reco rest with ⟨results, t⟩
    rw [hrec] at hpt
    rw [hrec] at ih
    simp only [] at hpt ih
    by_cases hgt : p > numPages
    · rw [if_pos hgt] at hpt
      exact List.mem_cons_of_mem _ (ih hpt)
    · rw [if_neg hgt] at hpt
      rcases hr : reco p with text | _ | _ <;> rw [hr] at hpt <;>
        try simp only [] at hpt
      · by_cases hn : trimJs (collapseWs text) ≠ []
        · rw [if_pos hn] at hpt
          rcases List.mem_cons.mp hpt with h1 | h2
          · rw [h1]
            exact List.mem_cons_self _ _
          · exact List.mem_cons_of_mem _ (ih h2)
        · rw [if_neg hn] at hpt
          exact List.mem_cons_of_mem _ (ih hpt)
      · exact List.mem_cons_of_mem _ (ih hpt)
      · exact List.mem_cons_of_mem _ (ih hpt)

/-- Helper: `ocrPdfPages` only reports pages from the requested list. -/
lemma ocrPdfPages_keys (canvas tesseract : Bool) (doc? : Option Nat)
    (reco : Nat → AdaptiveCase) (pagesToProcess : List Nat) (pt : Nat × JStr)
    (hpt : pt ∈ (ocrPdfPages canvas tesseract doc? reco pagesToProcess).1) :
    pt.1 ∈ pagesToProcess := by
  unfold ocrPdfPages at hpt
  by_cases h0 : pagesToProcess = []
  · rw [if_pos h0] at hpt
    simp at hpt
  · rw [if_neg h0] at hpt
    by_cases hc : !canvas
    · rw [if_pos hc] at hpt
      simp at hpt
    · rw [if_neg hc] at hpt
      simp only [] at hpt
      by_cases ht0 :
          List.insertionSort (· ≤ ·) ((pagesToProcess.filter (1 ≤ ·)).dedup)
            = []
      · rw [if_pos ht0] at hpt
        simp at hpt
      · rw [if_neg ht0] at hpt
        by_cases hts : !tesseract
        · rw [if_pos hts] at hpt
          simp at hpt
        · rw [if_neg hts] at hpt
          rcases hd : doc? with _ | numPages <;> rw [hd] at hpt <;>
            try simp only [] at hpt
          · simp at hpt
          · rcases hrec : ocrPdfPagesLoop numPages reco
                (List.insertionSort (· ≤ ·)
                  ((pagesToProcess.filter (1 ≤ ·)).dedup)) with ⟨results, t⟩
            rw [hrec] at hpt
            simp only [] at hpt
            have hmem : pt ∈ results := by
              by_cases hres : results ≠ []
              · rw [if_pos hres] at hpt
                exact hpt
              · rw [if_neg hres] at hpt
                exact hpt
            have htgt : pt.1 ∈ List.insertionSort (· ≤ ·)
                ((pagesToProcess.filter (1 ≤ ·)).dedup) := by
              apply ocrPdfPagesLoop_keys numPages reco _ pt
              rw [hrec]
              exact hmem
            have hded := (List.perm_insertionSort (· ≤ ·)
              ((pagesToProcess.filter (1 ≤ ·)).dedup)).mem_iff.mp htgt
            exact List.mem_of_mem_filter (List.mem_dedup.mp hded)

/-- Helper: splicing never shortens the page list. -/
lemma splicePage_length (pages : List JStr) (pn : Nat) (t : JStr) :
    pages.length ≤ (splicePage pages pn t).length := by
  unfold splicePage setAt
  rw [List.length_set, List.length_append]
  exact Nat.le_add_right _ _

/-- Helper: splicing at an in-range page number keeps the length. -/
lemma splicePage_length_eq (pages : List JStr) (pn : Nat) (t : JStr)
    (h : pn ≤ pages.length) :
    (splicePage pages pn t).length = pages.length := by
  unfold splicePage setAt
  rw [List.length_set, List.length_append, List.length_replicate,
    Nat.sub_eq_zero_of_le h, Nat.add_zero]

/-- Helper: splicing at an in-range page number only changes the page at
the matching index. -/
lemma splicePage_preserve (pages : List JStr) (pn : Nat) (t : JStr)
    (hle : pn ≤ pages.length) (i : Nat) (hne : pn - 1 ≠ i) :
    (splicePage pages pn t)[i]? = pages[i]? := by
  unfold splicePage setAt
  rw [Nat.sub_eq_zero_of_le hle, List.replicate_zero, List.append_nil]
  exact List.getElem?_set_ne hne

/-- Helper: the patch loop never shortens the page list. -/
lemma applyOcrPatches_length (patches : List (Nat × JStr))
    (pages : List JStr) :
    pages.length ≤ (applyOcrPatches pages patches).1.length := by
  induction patches generalizing pages with
  | nil => simp [applyOcrPatches]
  | cons pt rest ih =>
    rcases pt with ⟨pn, t⟩
    rw [applyOcrPatches]
    by_cases hn : trimJs (collapseWs t) = []
    · rw [if_pos hn]
      exact ih pages
    · rw [if_neg hn]
      rcases hrec : applyOcrPatches
          (splicePage pages pn (trimJs (collapseWs t))) rest with ⟨f, r⟩
      simp only []
      calc pages.length
          ≤ (splicePage pages pn (trimJs (collapseWs t))).length :=
            splicePage_length pages pn _
        _ ≤ (applyOcrPatches
              (splicePage pages pn (trimJs (collapseWs t))) rest).1.length :=
            ih _
        _ = f.length := by rw [hrec]

/-- Helper: patches that all avoid index `i` leave the page at `i`
unchanged. -/
lemma applyOcrPatches_preserve (patches : List (Nat × JStr))
    (pages : List JStr) (i : Nat)
    (hk : ∀ pt ∈ patches, pt.1 ≤ pages.length)
    (hi : ∀ pt ∈ patches, pt.1 - 1 ≠ i) :
    (applyOcrPatches pages patches).1[i]? = pages[i]? := by
  induction patches generalizing pages with
  | nil => simp [applyOcrPatches]
  | cons pt rest ih =>
    rcases pt with ⟨pn, t⟩
    rw [applyOcrPatches]
    by_cases hn : trimJs (collapseWs t) = []
    · rw [if_pos hn]
      exact ih pages (fun q hq => hk q (List.mem_cons_of_mem _ hq))
        (fun q hq => hi q (List.mem_cons_of_mem _ hq))
    · rw [if_neg hn]
      rcases hrec : applyOcrPatches
          (splicePage pages pn (trimJs (collapseWs t))) rest with ⟨f, r⟩
      simp only []
      have hpn : pn ≤ pages.length := hk (pn, t) (List.mem_cons_self _ _)
      have hlen : (splicePage pages pn (trimJs (collapseWs t))).length
          = pages.length := splicePage_length_eq pages pn _ hpn
      have hrest := ih (splicePage pages pn (trimJs (collapseWs t)))
        (fun q hq => by
          rw [hlen]
          exact hk q (List.mem_cons_of_mem _ hq))
        (fun q hq => hi q (List.mem_cons_of_mem _ hq))
      rw [hrec] at hrest
      simp only [] at hrest
      rw [hrest]
      exact splicePage_preserve pages pn _ hpn i
        (hi (pn, t) (List.mem_cons_self _ _))

/-- Helper: every index the patch loop changes has its page number
recorded (all patches being in range). -/
lemma applyOcrPatches_changed_recorded (patches : List (Nat × JStr))
    (pages : List JStr)
    (hk : ∀ pt ∈ patches, 1 ≤ pt.1 ∧ pt.1 ≤ pages.length) (i : Nat)
    (hch : (applyOcrPatches pages patches).1[i]? ≠ pages[i]?) :
    (i + 1) ∈ (applyOcrPatches pages patches).2 := by
  induction patches generalizing pages with
  | nil => simp [applyOcrPatches] at hch
  | cons pt rest ih =>
    rcases pt with ⟨pn, t⟩
    rw [applyOcrPatches] at hch ⊢
    by_cases hn : trimJs (collapseWs t) = []
    · rw [if_pos hn] at hch ⊢
      exact ih pages (fun q hq => hk q (List.mem_cons_of_mem _ hq)) hch
    · rw [if_neg hn] at hch ⊢
      rcases hrec : applyOcrPatches
          (splicePage pages pn (trimJs (collapseWs t))) rest with ⟨f, r⟩
      rw [hrec] at hch
      simp only [] at hch ⊢
      rcases hk (pn, t) (List.mem_cons_self _ _) with ⟨h1, h2⟩
      by_cases hip : pn - 1 = i
      · have : pn = i + 1 := by omega
        rw [this]
        exact List.mem_cons_self _ _
      · apply List.mem_cons_of_mem
        have hlen : (splicePage pages pn (trimJs (collapseWs t))).length
            = pages.length := splicePage_length_eq pages pn _ h2
        have hmid : (splicePage pages pn (trimJs (collapseWs t)))[i]?
            = pages[i]? := splicePage_preserve pages pn _ h2 i hip
        have := ih (splicePage pages pn (trimJs (collapseWs t)))
          (fun q hq => by
            rw [hlen]
            exact hk q (List.mem_cons_of_mem _ hq))
          (by
            rw [hrec]
            simp only []
            rw [hmid]
            exact hch)
        rw [hrec] at this
        exact this

/-- Helper: frame conditions of the adaptive patch stage, for any input
metadata. -/
lemma pdfAdaptivePatch_frame_aux (env : Env) (pdfText : JStr)
    (pm : PageMeta) :
    pm.pages.length ≤ (pdfAdaptivePatch env pdfText pm).2.1.pages.length ∧
    (∀ (i : Nat) (pg : JStr), pm.pages[i]? = some pg →
      OCR_QUALITY_THRESHOLD ≤ computeQuality pg →
      (pdfAdaptivePatch env pdfText pm).2.1.pages[i]? = some pg) ∧
    (∀ i : Nat,
      (pdfAdaptivePatch env pdfText pm).2.1.pages[i]? ≠ pm.pages[i]? →
      (∃ pg, pm.pages[i]? = some pg ∧
        computeQuality pg < OCR_QUALITY_THRESHOLD) ∧
      (i + 1) ∈
        (pdfAdaptivePatch env pdfText pm).2.1.ocrPatchedPages.getD []) := by
  unfold pdfAdaptivePatch
  by_cases hlq : lowQualityPagesOf pm.pages = []
  · rw [if_pos hlq]
    exact ⟨Nat.le_refl _, fun i pg hpg _ => hpg, fun i hne => (hne rfl).elim⟩
  · rw [if_neg hlq]
    rcases hoc : ocrPdfPages env.adaptiveCanvas env.adaptiveTesseract
        env.adaptiveDoc env.adaptiveRecognize (lowQualityPagesOf pm.pages)
      with ⟨patches, t⟩
    simp only []
    have hkeys : ∀ pt ∈ patches, ∃ j pg, pm.pages[j]? = some pg ∧
        computeQuality pg < OCR_QUALITY_THRESHOLD ∧ pt.1 = j + 1 := by
      intro pt hpt
      apply mem_lowQualityPagesOf
      apply ocrPdfPages_keys env.adaptiveCanvas env.adaptiveTesseract
        env.adaptiveDoc env.adaptiveRecognize _ pt
      rw [hoc]
      exact hpt
    have hk1 : ∀ pt ∈ patches, 1 ≤ pt.1 ∧ pt.1 ≤ pm.pages.length := by
      intro pt hpt
      rcases hkeys pt hpt with ⟨j, pg, hj, _, hval⟩
      rcases List.getElem?_eq_some.mp hj with ⟨hjl, _⟩
      omega
    rcases hap : applyOcrPatches pm.pages patches
      with ⟨newPages, patchedPages⟩
    simp only []
    by_cases hpp : patchedPages = []
    · rw [if_pos hpp]
      exact ⟨Nat.le_refl _, fun i pg hpg _ => hpg, fun i hne => (hne rfl).elim⟩
    · rw [if_neg hpp]
      refine ⟨?_, ?_, ?_⟩
      · have := applyOcrPatches_length patches pm.pages
        rw [hap] at this
        exact this
      · intro i pg hpg hge
        have hpres := applyOcrPatches_preserve patches pm.pages i
          (fun pt hpt => (hk1 pt hpt).2)
          (fun pt hpt => by
            rcases hkeys pt hpt with ⟨j, pg2, hj, hlt, hval⟩
            intro hji
            have hji2 : j = i := by omega
            rw [hji2, hpg] at hj
            rcases Option.some.injEq .. ▸ hj with rfl
            exact absurd hge (not_le.mpr hlt))
        rw [hap] at hpres
        simp only [] at hpres ⊢
        rw [hpres]
        exact hpg
      · intro i hne
        simp only [] at hne
        have hrec := applyOcrPatches_changed_recorded patches pm.pages hk1 i
          (by
            rw [hap]
            exact hne)
        rw [hap] at hrec
        refine ⟨?_, hrec⟩
        by_contra hno
        apply hne
        have hpres := applyOcrPatches_preserve patches pm.pages i
          (fun pt hpt => (hk1 pt hpt).2)
          (fun pt hpt => by
            rcases hkeys pt hpt with ⟨j, pg2, hj, hlt, hval⟩
            intro hji
            have hji2 : j = i := by omega
            rw [hji2] at hj
            exact hno ⟨pg2, hj, hlt⟩)
        rw [hap] at hpres
        exact hpres

/-- Helper: the metadata component of `pdfAfterPatch` is the adaptive
patch of the structural metadata. -/
lemma pdfAfterPatch_meta (env : Env) :
    (pdfAfterPatch env).2.1 =
      (pdfAdaptivePatch env (renderPdfWithPdfjs env.pdfjsPages).1.text
        (pdfStructMeta env)).2.1 := by
  unfold pdfAfterPatch pdfStructMeta
  rcases renderPdfWithPdfjs env.pdfjsPages with ⟨pr, t1⟩
  simp only []

set_option maxRecDepth 8000 in
/-- Helper: the quality score of 480 repeated Latin letters is exactly
the threshold. -/
lemma computeQuality_replicate480 :
    computeQuality (List.replicate 480 0x61) = 12/100 := by
  have h1 : trimJs (collapseWs (List.replicate 480 0x61)) =
      List.replicate 480 0x61 := by decide
  have h2 : countUnits isCyrillicUnit (List.replicate 480 0x61) = 0 := by
    decide
  have h3 : (List.replicate (480 : Nat) (0x61 : Nat)).length = 480 := by
    decide
  unfold computeQuality
  rw [h1]
  norm_num [h2, h3, toFixed3, min_def, max_def]

/-- **C6**: in the pdf branch, the adaptive per-page OCR patch never
shortens the page list; every page whose quality score met the `0.12`
threshold keeps its text (by index); and any index whose page changed
held a below-threshold page and has its page number recorded in
`ocrPatchedPages`. -/
theorem pdf_adaptive_patch_frame (env : Env) :
    (pdfStructMeta env).pages.length ≤ (pdfAfterPatch env).2.1.pages.length ∧
    (∀ (i : Nat) (pg : JStr), (pdfStructMeta env).pages[i]? = some pg →
      OCR_QUALITY_THRESHOLD ≤ computeQuality pg →
      (pdfAfterPatch env).2.1.pages[i]? = some pg) ∧
    (∀ i : Nat,
      (pdfAfterPatch env).2.1.pages[i]? ≠ (pdfStructMeta env).pages[i]? →
      (∃ pg, (pdfStructMeta env).pages[i]? = some pg ∧
        computeQuality pg < OCR_QUALITY_THRESHOLD) ∧
      (i + 1) ∈ (pdfAfterPatch env).2.1.ocrPatchedPages.getD []) := by
  rw [pdfAfterPatch_meta env]
  exact pdfAdaptivePatch_frame_aux env
    (renderPdfWithPdfjs env.pdfjsPages).1.text (pdfStructMeta env)

set_option maxRecDepth 20000 in
/-- Witness for C6 at `envC6`: page 1 sits exactly at the threshold and
survives the patch untouched. -/
theorem pdf_adaptive_patch_frame_witness :
    (pdfAfterPatch envC6).2.1.pages[0]? = some (List.replicate 480 0x61) :=
  (pdf_adaptive_patch_frame envC6).2.1 0 (List.replicate 480 0x61)
    (by decide)
    (by
      rw [computeQuality_replicate480]
      norm_num [OCR_QUALITY_THRESHOLD])

/-- Helper: the splitting worker, decomposed into its first emitted
cluster and the recursive split of the remainder. -/
lemma splitGo_decomp (g : Rat) (l : List CenterEntry) :
    ∀ (prev : Rat) (acc : List CenterEntry),
    splitGo g prev acc l =
      (acc ++ (gapSplitFirst g prev l).1) ::
        splitByGap g (gapSplitFirst g prev l).2 := by
  induction l with
  | nil =>
    intro prev acc
    simp [splitGo, gapSplitFirst, splitByGap]
  | cons e rest ih =>
    intro prev acc
    rw [splitGo, gapSplitFirst]
    by_cases hgap : e.center - prev > g
    · rw [if_pos hgap, if_pos hgap]
      simp only []
      rw [List.append_nil, splitByGap]
    · rw [if_neg hgap, if_neg hgap]
      rcases hrec : gapSplitFirst g e.center rest with ⟨a, b⟩
      simp only []
      rw [ih e.center (acc ++ [e]), hrec]
      simp

/-- Helper: the cluster boundary is at least the starting center when the
center sequence is sorted and bounded below by it. -/
lemma gapBound_ge (g : Rat) (cs : List Rat) :
    ∀ prev : Rat, cs.Pairwise (· ≤ ·) → (∀ c ∈ cs, prev ≤ c) →
    prev ≤ gapBound g prev cs := by
  induction cs with
  | nil =>
    intro prev _ _
    simp [gapBound]
  | cons c rest ih =>
    intro prev hpw hall
    rw [gapBound]
    by_cases hgap : c - prev > g
    · rw [if_pos hgap]
    · rw [if_neg hgap]
      obtain ⟨hhead, htail⟩ := List.pairwise_cons.mp hpw
      exact le_trans (hall c (List.mem_cons_self _ _)) (ih c htail hhead)

/-- Helper: on a sorted list bounded below by `prev`, the splitting loop
takes exactly the prefix of centers up to the gap boundary. -/
lemma gapSplitFirst_eq (g : Rat) (hg : 0 < g) (l : List CenterEntry) :
    ∀ prev : Rat, l.Pairwise centerLE → (∀ x ∈ l, prev ≤ x.center) →
    (gapSplitFirst g prev l).1 =
      l.takeWhile
        (fun e => e.center ≤ gapBound g prev (l.map CenterEntry.center)) ∧
    (gapSplitFirst g prev l).2 =
      l.dropWhile
        (fun e => e.center ≤ gapBound g prev (l.map CenterEntry.center)) := by
  induction l with
  | nil =>
    intro prev _ _
    exact ⟨rfl, rfl⟩
  | cons e rest ih =>
    intro prev hpw hall
    rw [gapSplitFirst, List.map_cons, gapBound]
    by_cases hgap : e.center - prev > g
    · rw [if_pos hgap, if_pos hgap]
      have hne : ¬(e.center ≤ prev) := by
        intro hle
        have h1 : e.center - prev ≤ 0 := by linarith
        linarith
      constructor
      · rw [List.takeWhile_cons_of_neg (by simpa using hne)]
      · rw [List.dropWhile_cons_of_neg (by simpa using hne)]
    · rw [if_neg hgap, if_neg hgap]
      obtain ⟨hhead, htail⟩ := List.pairwise_cons.mp hpw
      have hb : e.center ≤ gapBound g e.center
          (rest.map CenterEntry.center) := by
        apply gapBound_ge
        · exact List.Pairwise.map _ (fun a b h => h) htail
        · intro c hc
          rcases List.mem_map.mp hc with ⟨x, hx, rfl⟩
          exact hhead x hx
      rcases hrec : gapSplitFirst g e.center rest with ⟨a, b⟩
      simp only []
      have hih := ih e.center htail (fun x hx => hhead x hx)
      rw [hrec] at hih
      simp only [] at hih
      constructor
      · rw [List.takeWhile_cons_of_pos (by simpa using hb), ← hih.1]
      · rw [List.dropWhile_cons_of_pos (by simpa using hb), ← hih.2]

/-- Helper: on a sorted list, taking while the center is below a bound is
the same as filtering. -/
lemma sorted_takeWhile_filter (c : Rat) (l : List CenterEntry) :
    l.Pairwise centerLE →
    (l.takeWhile (fun e => e.center ≤ c) =
        l.filter (fun e => e.center ≤ c) ∧
      l.dropWhile (fun e => e.center ≤ c) =
        l.filter (fun e => !(decide (e.center ≤ c)))) := by
  induction l with
  | nil =>
    intro _
    exact ⟨rfl, rfl⟩
  | cons e rest ih =>
    intro hpw
    obtain ⟨hhead, htail⟩ := List.pairwise_cons.mp hpw
    obtain ⟨h1, h2⟩ := ih htail
    by_cases hc : e.center ≤ c
    · constructor
      · rw [List.takeWhile_cons_of_pos (by simpa using hc),
          List.filter_cons_of_pos (by simpa using hc), h1]
      · rw [List.dropWhile_cons_of_pos (by simpa using hc),
          List.filter_cons_of_neg (by simp [hc]), h2]
    · constructor
      · rw [List.takeWhile_cons_of_neg (by simpa using hc),
          List.filter_cons_of_neg (by simpa using hc)]
        symm
        rw [List.filter_eq_nil_iff]
        intro x hx
        have hxc : ¬ x.center ≤ c := fun hle =>
          hc (le_trans (hhead x hx) hle)
        simpa using hxc
      · rw [List.dropWhile_cons_of_neg (by simpa using hc),
          List.filter_cons_of_pos (by simp [hc])]
        congr 1
        symm
        rw [List.filter_eq_self]
        intro x hx
        have hxc : ¬ x.center ≤ c := fun hle =>
          hc (le_trans (hhead x hx) hle)
        simpa using hxc

/-- Helper: two sorted permutations carry the same center sequence. -/
lemma sorted_perm_center_map (l1 l2 : List CenterEntry) (hp : l1.Perm l2)
    (hs1 : l1.Pairwise centerLE) (hs2 : l2.Pairwise centerLE) :
    l1.map CenterEntry.center = l2.map CenterEntry.center := by
  have h1 : List.Sorted (· ≤ ·) (l1.map CenterEntry.center) :=
    List.Pairwise.map _ (fun a b h => h) hs1
  have h2 : List.Sorted (· ≤ ·) (l2.map CenterEntry.center) :=
    List.Pairwise.map _ (fun a b h => h) hs2
  exact List.eq_of_perm_of_sorted (hp.map _) h1 h2

/-- Helper: the gap split sends sorted permutations to pointwise
permuted cluster lists. -/
lemma splitByGap_perm (g : Rat) (hg : 0 < g) :
    ∀ (n : Nat) (l1 l2 : List CenterEntry), l1.length ≤ n → l1.Perm l2 →
    l1.Pairwise centerLE → l2.Pairwise centerLE →
    List.Forall₂ List.Perm (splitByGap g l1) (splitByGap g l2) := by
  intro n
  induction n with
  | zero =>
    intro l1 l2 hlen hp _ _
    cases l1 with
    | cons a t => simp at hlen
    | nil =>
      have h2 : l2 = [] := hp.symm.eq_nil
      subst h2
      exact List.Forall₂.nil
  | succ n ih =>
    intro l1 l2 hlen hp hs1 hs2
    cases l1 with
    | nil =>
      have h2 : l2 = [] := hp.symm.eq_nil
      subst h2
      exact List.Forall₂.nil
    | cons e1 t1 =>
      cases l2 with
      | nil => exact absurd hp.eq_nil (by simp)
      | cons e2 t2 =>
        have hc := sorted_perm_center_map _ _ hp hs1 hs2
        rw [List.map_cons, List.map_cons, List.cons.injEq] at hc
        obtain ⟨hcc, hct⟩ := hc
        obtain ⟨hhead1, htail1⟩ := List.pairwise_cons.mp hs1
        obtain ⟨hhead2, htail2⟩ := List.pairwise_cons.mp hs2
        rw [splitByGap, splitByGap, splitGo_decomp g t1 e1.center [e1],
          splitGo_decomp g t2 e2.center [e2]]
        obtain ⟨hf1, hr1⟩ :=
          gapSplitFirst_eq g hg t1 e1.center htail1 (fun x hx => hhead1 x hx)
        obtain ⟨hf2, hr2⟩ :=
          gapSplitFirst_eq g hg t2 e2.center htail2 (fun x hx => hhead2 x hx)
        have hbeq : gapBound g e1.center (t1.map CenterEntry.center) =
            gapBound g e2.center (t2.map CenterEntry.center) := by
          rw [hcc, hct]
        have hb1 : e1.center ≤ gapBound g e2.center
            (t2.map CenterEntry.center) := by
          rw [← hbeq]
          apply gapBound_ge
          · exact List.Pairwise.map _ (fun a b h => h) htail1
          · intro c hcm
            rcases List.mem_map.mp hcm with ⟨x, hx, rfl⟩
            exact hhead1 x hx
        have hb2 : e2.center ≤ gapBound g e2.center
            (t2.map CenterEntry.center) := by
          apply gapBound_ge
          · exact List.Pairwise.map _ (fun a b h => h) htail2
          · intro c hcm
            rcases List.mem_map.mp hcm with ⟨x, hx, rfl⟩
            exact hhead2 x hx
        rw [hbeq] at hf1 hr1
        obtain ⟨ht1, hd1⟩ := sorted_takeWhile_filter
          (gapBound g e2.center (t2.map CenterEntry.center)) t1 htail1
        obtain ⟨ht2, hd2⟩ := sorted_takeWhile_filter
          (gapBound g e2.center (t2.map CenterEntry.center)) t2 htail2
        have e1eq : (e1 :: List.filter
            (fun e => decide (e.center ≤ gapBound g e2.center
              (t2.map CenterEntry.center))) t1) =
            List.filter (fun e => decide (e.center ≤ gapBound g e2.center
              (t2.map CenterEntry.center))) (e1 :: t1) :=
          (List.filter_cons_of_pos (by simpa using hb1)).symm
        have e2eq : (e2 :: List.filter
            (fun e => decide (e.center ≤ gapBound g e2.center
              (t2.map CenterEntry.center))) t2) =
            List.filter (fun e => decide (e.center ≤ gapBound g e2.center
              (t2.map CenterEntry.center))) (e2 :: t2) :=
          (List.filter_cons_of_pos (by simpa using hb2)).symm
        have d1eq : List.filter
            (fun e => !(decide (e.center ≤ gapBound g e2.center
              (t2.map CenterEntry.center)))) t1 =
            List.filter (fun e => !(decide (e.center ≤ gapBound g e2.center
              (t2.map CenterEntry.center)))) (e1 :: t1) :=
          (List.filter_cons_of_neg (by simp [hb1])).symm
        have d2eq : List.filter
            (fun e => !(decide (e.center ≤ gapBound g e2.center
              (t2.map CenterEntry.center)))) t2 =
            List.filter (fun e => !(decide (e.center ≤ gapBound g e2.center
              (t2.map CenterEntry.center)))) (e2 :: t2) :=
          (List.filter_cons_of_neg (by simp [hb2])).symm
        apply List.Forall₂.cons
        · rw [hf1, hf2, ht1, ht2]
          simp only [List.singleton_append]
          rw [e1eq, e2eq]
          exact hp.filter _
        · rw [hr1, hr2, hd1, hd2, d1eq, d2eq]
          apply ih
          · rw [← d1eq]
            calc (List.filter (fun e => !(decide (e.center ≤
                  gapBound g e2.center (t2.map CenterEntry.center))))
                  t1).length
                ≤ t1.length := (List.filter_sublist _).length_le
              _ ≤ n := by simpa using hlen
          · exact hp.filter _
          · exact List.Pairwise.sublist (List.filter_sublist _) hs1
          · exact List.Pairwise.sublist (List.filter_sublist _) hs2

/-- Helper: the column built from a cluster depends only on the cluster
up to permutation. -/
lemma columnOfCluster_perm (pw : Rat) (n : Nat) (c1 c2 : List CenterEntry)
    (h : c1.Perm c2) : columnOfCluster pw n c1 = columnOfCluster pw n c2 := by
  have hmin : minAll (c1.map (fun e => e.block.bbox.x1)) =
      minAll (c2.map (fun e => e.block.bbox.x1)) := by
    unfold minAll
    exact @List.Perm.foldr_eq _ _
      (fun (a : Rat) (m : WithTop Rat) => min (↑a) m) _ _
      ⟨fun a b m => min_left_comm _ _ _⟩ (h.map _) ⊤
  have hmax : maxAll (c1.map (fun e => e.block.bbox.x2)) =
      maxAll (c2.map (fun e => e.block.bbox.x2)) := by
    unfold maxAll
    exact @List.Perm.foldr_eq _ _
      (fun (a : Rat) (m : WithBot Rat) => max (↑a) m) _ _
      ⟨fun a b m => max_left_comm _ _ _⟩ (h.map _) ⊥
  have hsum : (c1.map (fun e => e.center)).sum =
      (c2.map (fun e => e.center)).sum := (h.map _).sum_eq
  have hlen : c1.length = c2.length := h.length_eq
  unfold columnOfCluster
  rw [hmin, hmax, hsum, hlen]

/-- Helper: pointwise permuted cluster lists produce the same columns. -/
lemma mapIdxFrom_columnOfCluster (pw : Rat)
    (cs1 cs2 : List (List CenterEntry))
    (hf : List.Forall₂ List.Perm cs1 cs2) :
    ∀ n : Nat, mapIdxFrom (columnOfCluster pw) n cs1 =
      mapIdxFrom (columnOfCluster pw) n cs2 := by
  induction hf with
  | nil => intro n; rfl
  | cons h _ ih =>
    intro n
    rw [mapIdxFrom, mapIdxFrom, columnOfCluster_perm pw n _ _ h, ih (n + 1)]

/-- **C9**: `detectColumns` is invariant under permutation of the block
list: reordering the input blocks yields the same column list (same ids,
bounds, centers and block counts), the gap threshold
`max (pageWidth * 0.08) 42` and the sorted center sequence being
determined by the block multiset alone. -/
theorem detectColumns_perm_invariant (blocks1 blocks2 : List Block)
    (pageWidth : Rat) (hp : List.Perm blocks1 blocks2) :
    detectColumns blocks1 pageWidth = detectColumns blocks2 pageWidth := by
  unfold detectColumns
  by_cases h1 : blocks1 = []
  · subst h1
    rw [if_pos rfl, if_pos hp.symm.eq_nil]
  · have h2 : blocks2 ≠ [] := by
      intro h
      subst h
      exact h1 hp.eq_nil
    rw [if_neg h1, if_neg h2]
    apply mapIdxFrom_columnOfCluster
    have hg : (0 : Rat) < max (pageWidth * (8/100)) 42 :=
      lt_of_lt_of_le (by norm_num) (le_max_right _ _)
    apply splitByGap_perm _ hg (List.insertionSort centerLE
      (blocks1.map (fun block =>
        { center := (block.bbox.x1 + block.bbox.x2) / 2,
          block := block }))).length
    · exact Nat.le_refl _
    · exact ((List.perm_insertionSort _ _).trans (hp.map _)).trans
        (List.perm_insertionSort _ _).symm
    · exact List.sorted_insertionSort centerLE _
    · exact List.sorted_insertionSort centerLE _

/-- Witness for C9: swapping two concrete blocks leaves the detected
columns unchanged. -/
theorem detectColumns_perm_invariant_witness :
    List.Perm [blockLeft, blockRight] [blockRight, blockLeft] ∧
    detectColumns [blockLeft, blockRight] 600 =
      detectColumns [blockRight, blockLeft] 600 :=
  ⟨List.Perm.swap blockRight blockLeft [],
   detectColumns_perm_invariant [blockLeft, blockRight]
     [blockRight, blockLeft] 600 (List.Perm.swap blockRight blockLeft [])⟩
